import Mathlib

/-!
Verification of the llvm-bitcode bitstream reader.

The development shallowly embeds the Rust sources:
  * `src/bits.rs`   — the sub-byte bit cursor (`Cursor`);
  * `src/read.rs`   — the block/record parser (`BitStreamReader`);
  * `src/bitcode.rs`— the record iterator (`RecordIter`) and `Signature`.

Conventions of the embedding:
  * A cursor is a byte buffer (`List Nat`, each entry a byte) plus a bit
    offset.  The source stores both in one struct; only `align32` ever
    rebases the buffer (dropping the consumed prefix and zeroing the
    offset), which is observationally the same as advancing the offset,
    so the embedding keeps the buffer fixed and threads the offset.
  * Functions that take `&mut self` in Rust return a pair of the
    `Result` and the new offset, so that the cursor position after a
    failed call is part of the model.
  * Machine integers are `Nat` with explicit `% 2 ^ 64` where u64
    overflow matters; `as u8` casts are `% 256`.
-/

/-! ## Definitions -/

/-- Errors of `src/bits.rs` (`bits::Error`). -/
inductive BErr where
  | bufferOverflow
  | vbrOverflow
  | alignment
deriving DecidableEq

deriving instance DecidableEq for Except

/-- The byte-accumulation loop of `Cursor::read_bits`:
`for i in ((offset >> 3)..(upper_bound >> 3)).rev() { res <<= 8; res |= buffer[i]; }`,
with `n` counting how many byte indices `lo + n - 1, …, lo` remain.
`res` is a u64: `res <<= 8` keeps only the low 64 bits, so a read whose
span `count + off % 8` exceeds 64 bits drops the top bits, exactly as the
source does. -/
def orBytesDown (buf : List Nat) (lo : Nat) : Nat → Nat → Option Nat
  | 0, res => some res
  | n + 1, res =>
    match buf[lo + n]? with
    | none => none
    | some b => orBytesDown buf lo n (((res <<< 8) % 2 ^ 64) ||| b)

/-- `Cursor::read_bits` from `src/bits.rs`. -/
def Cursor.readBits (buf : List Nat) (off count : Nat) : Option Nat :=
  let ub := off + count
  let init : Option Nat :=
    if ub % 8 ≠ 0 then
      match buf[ub / 8]? with
      | none => none
      | some b => some (b &&& ((1 <<< (ub % 8)) - 1))
    else some 0
  match init with
  | none => none
  | some i =>
    match orBytesDown buf (off / 8) (ub / 8 - off / 8) i with
    | none => none
    | some res => some (if off % 8 ≠ 0 then res >>> (off % 8) else res)

/-- `Cursor::peek` from `src/bits.rs`: `read_bits(bits).ok_or(BufferOverflow)`. -/
def Cursor.peek (buf : List Nat) (off bits : Nat) : Except BErr Nat :=
  match Cursor.readBits buf off bits with
  | none => .error .bufferOverflow
  | some v => .ok v

/-- `Cursor::read` from `src/bits.rs`.  The offset advances only on success. -/
def Cursor.read (buf : List Nat) (off bits : Nat) : Except BErr Nat × Nat :=
  if bits < 1 ∨ 64 < bits then (.error .vbrOverflow, off)
  else
    match Cursor.peek buf off bits with
    | .error e => (.error e, off)
    | .ok v => (.ok v, off + bits)

/-- The loop of `Cursor::read_vbr`: `acc` is the running shift (`offset` in
the source), `res` the accumulated result.  `res |= (next & mask) << offset`
is u64 arithmetic: the shift amount wraps mod 64 (release Rust; debug Rust
panics when the amount reaches 64) and the result keeps the low 64 bits.
The shift amount equals exactly 64 — landing that chunk's payload bits in
the low bits of the result — only when `w - 1` divides 64, at chunk
`64/(w-1) + 1`; any larger shift amount makes the same iteration return
`VbrOverflow`, so its value is never observed. -/
def Cursor.readVbrLoop (buf : List Nat) (w : Nat) : Nat → Nat → Nat → Nat → Except BErr Nat × Nat
  | 0, _, _, off => (.error .vbrOverflow, off)
  | fuel + 1, res, acc, off =>
    match Cursor.read buf off w with
    | (.error e, off2) => (.error e, off2)
    | (.ok next, off2) =>
      let res2 := (res ||| ((next &&& (2 ^ (w - 1) - 1)) <<< (acc % 64))) % 2 ^ 64
      let acc2 := acc + (w - 1)
      if 63 + w < acc2 then (.error .vbrOverflow, off2)
      else if next &&& 2 ^ (w - 1) = 0 then (.ok res2, off2)
      else Cursor.readVbrLoop buf w fuel res2 acc2 off2

/-- `Cursor::read_vbr` from `src/bits.rs`.  The fuel `8 * buf.length + 2`
cannot be exhausted: every iteration consumes `w ≥ 1` bits. -/
def Cursor.readVbr (buf : List Nat) (off w : Nat) : Except BErr Nat × Nat :=
  if w < 1 ∨ 32 < w then (.error .vbrOverflow, off)
  else Cursor.readVbrLoop buf w (8 * buf.length + 2) 0 0 off

/-- `Cursor::align32` from `src/bits.rs`.  The source drops the consumed
bytes and zeroes the offset; the embedding advances the offset instead
(see the header comment), with the same bound check. -/
def Cursor.align32 (buf : List Nat) (off : Nat) : Except BErr Unit × Nat :=
  let no := if off % 32 = 0 then off else (off + 32) / 32 * 32
  if no / 8 ≤ buf.length then (.ok (), no) else (.error .bufferOverflow, off)

/-- `Cursor::skip_bytes` from `src/bits.rs`. -/
def Cursor.skipBytes (buf : List Nat) (off count : Nat) : Except BErr Unit × Nat :=
  if off % 8 ≠ 0 then (.error .alignment, off)
  else
    let byteEnd := off / 8 + count
    if byteEnd > buf.length then (.error .bufferOverflow, off)
    else (.ok (), byteEnd * 8)

/-- `Cursor::read_bytes` from `src/bits.rs`. -/
def Cursor.readBytes (buf : List Nat) (off len : Nat) : Except BErr (List Nat) × Nat :=
  if off % 8 ≠ 0 then (.error .alignment, off)
  else
    let s := off / 8
    if s + len ≤ buf.length then (.ok ((buf.drop s).take len), (s + len) * 8)
    else (.error .bufferOverflow, off)

/-- `Operand` from `src/bitstream.rs` (the variant used by `src/read.rs`). -/
inductive Operand where
  | literal (value : Nat)
  | fixed (width : Nat)
  | vbr (width : Nat)
  | array (element : Operand)
  | char6
  | blob
deriving DecidableEq

/-- `Operand::is_payload`. -/
def Operand.isPayload : Operand → Bool
  | .array _ | .blob => true
  | .literal _ | .fixed _ | .vbr _ | .char6 => false

/-- `Operand::is_array`. -/
def Operand.isArray : Operand → Bool
  | .array _ => true
  | _ => false

/-- `Operand::is_blob`. -/
def Operand.isBlob : Operand → Bool
  | .blob => true
  | _ => false

/-- `Abbreviation` from `src/bitstream.rs` (operand-list form). -/
structure Abbreviation where
  operands : List Operand
deriving DecidableEq

/-- `ScalarOperand` of the newer bitstream variant used by `src/bitcode.rs`
(its defining file is not under `src/`; the shape is determined by its uses
in `src/bitcode.rs` and the spec §3: scalar operands are `Literal`, `Fixed`,
`VBR`, `Char6`). -/
inductive ScalarOperand where
  | literal (value : Nat)
  | fixed (width : Nat)
  | vbr (width : Nat)
  | char6
deriving DecidableEq

/-- `PayloadOperand` of the newer bitstream variant used by `src/bitcode.rs`:
`Array(inner scalar)` or `Blob` (spec §3). -/
inductive PayloadOperand where
  | array (element : ScalarOperand)
  | blob
deriving DecidableEq

/-- The fields/payload `Abbreviation` of the newer bitstream variant used by
`src/bitcode.rs` (`abbrev.fields`, `abbrev.payload`). -/
structure AbbreviationFP where
  fields : List ScalarOperand
  payload : Option PayloadOperand
deriving DecidableEq

/-- `Operand` wrapper carried by `Error::UnexpectedOperand` in the newer
variant (`Operand::Scalar` / `Operand::Payload`). -/
inductive OperandSP where
  | scalar (op : ScalarOperand)
  | payload (op : PayloadOperand)
deriving DecidableEq

/-- Reader errors: the union of `read::Error` from `src/read.rs` and the
additional variants (`EndOfRecord`, `ValueOverflow`, `UnexpectedOperand`)
that `src/bitcode.rs` uses from the newer variant of that enum. -/
inductive Error where
  | invalidSignature (magic : Nat)
  | invalidAbbrev
  | nestedBlockInBlockInfo
  | missingSetBid
  | invalidBlockInfoRecord (recordId : Nat)
  | abbrevWidthTooSmall (width : Nat)
  | noSuchAbbrev (blockId : Nat) (abbrevId : Nat)
  | missingEndBlock (blockId : Nat)
  | endOfRecord
  | valueOverflow
  | unexpectedOperand (op : Option OperandSP)
  | readBits (e : BErr)
deriving DecidableEq

/-- The Char6 value-to-ASCII mapping, written identically in
`read.rs::read_single_abbreviated_record_operand` and
`bitcode.rs::RecordIter::read_scalar_operand`:
0..=25 → `a..z`, 26..=51 → `A..Z`, 52..=61 → `0..9`, 62 → `.`, 63 → `_`. -/
def char6Decode (v : Nat) : Except Error Nat :=
  if v ≤ 25 then .ok (v + 97)
  else if v ≤ 51 then .ok (v + 65 - 26)
  else if v ≤ 61 then .ok (v - (52 - 48))
  else if v = 62 then .ok 46
  else if v = 63 then .ok 95
  else .error .invalidAbbrev

/-- The 64 ASCII codes `a..z ++ A..Z ++ 0..9 ++ [., _]` named by the spec. -/
def char6Alphabet : List Nat :=
  (List.range 26).map (fun i => 97 + i) ++ (List.range 26).map (fun i => 65 + i) ++
    (List.range 10).map (fun i => 48 + i) ++ [46, 95]

/-- `RecordIter::i64` from `src/bitcode.rs`: the low bit of the wire value is
the sign; `1 << 63` on i64 is `i64::MIN = -(2^63)`. -/
def i64Decode (v : Nat) : Int :=
  if v % 2 = 0 then ((v >>> 1 : Nat) : Int)
  else if v ≠ 1 then -((v >>> 1 : Nat) : Int)
  else -(2 ^ 63)

/-- `Signature` from `src/bitcode.rs`. -/
structure Signature where
  magic : Nat
  magic2 : Nat
  version : Nat
  offset : Nat
  size : Nat
  cpuType : Nat
deriving DecidableEq

/-- A little-endian u32 from the first four bytes of a list
(`u32::from_le_bytes` on a `split_first_chunk::<4>` / `chunks_exact(4)`
window); `none` when fewer than four bytes remain. -/
def leU32 (l : List Nat) : Option Nat :=
  match l with
  | b0 :: b1 :: b2 :: b3 :: _ => some (b0 + 256 * b1 + 65536 * b2 + 16777216 * b3)
  | _ => none

/-- `Signature::parse` from `src/bitcode.rs`.  `0x0B17C0DE = 186122462`... -/
def Signature.parse (data : List Nat) : Option (Signature × List Nat) :=
  match leU32 data with
  | none => none
  | some magic =>
    if magic ≠ 0x0B17C0DE then
      some (⟨magic, 0, 0, 4, data.length - 4, 0⟩, data.drop 4)
    else if data.length < 20 then none
    else
      match leU32 (data.drop 4), leU32 (data.drop 8), leU32 (data.drop 12),
          leU32 (data.drop 16) with
      | some version, some offset, some size, some cpuId =>
        if offset + size ≤ data.length then
          let inner := (data.drop offset).take size
          match leU32 inner with
          | some magic2 => some (⟨magic, magic2, version, offset, size, cpuId⟩, inner.drop 4)
          | none => none
        else none
      | _, _, _, _ => none

/-- Spec-side restatement of the claim (with the corrected chunk bound):
`read_vbr(w)` reads `w`-bit chunks and ORs the low `w-1` bits of chunk
number `k` (0-based) into the 64-bit result at shift position
`k·(w-1) mod 64` (u64 shift semantics — the reduction only matters at the
shift-64 boundary reached when `w-1` divides 64), stops when a chunk's
high bit is clear, and fails with `VbrOverflow` exactly when the number of
consumed chunks exceeds `⌊64/(w-1)⌋ + 1` (never for `w = 1`).  Identical
to `Cursor.readVbrLoop` except that the overflow test counts chunks. -/
def vbrChunksFixed (buf : List Nat) (w : Nat) : Nat → Nat → Nat → Nat → Except BErr Nat × Nat
  | 0, _, _, off => (.error .vbrOverflow, off)
  | fuel + 1, res, k, off =>
    match Cursor.read buf off w with
    | (.error e, off2) => (.error e, off2)
    | (.ok next, off2) =>
      let res2 := (res ||| ((next &&& (2 ^ (w - 1) - 1)) <<< (k * (w - 1) % 64))) % 2 ^ 64
      let k2 := k + 1
      if 2 ≤ w ∧ 64 / (w - 1) + 1 < k2 then (.error .vbrOverflow, off2)
      else if next &&& 2 ^ (w - 1) = 0 then (.ok res2, off2)
      else vbrChunksFixed buf w fuel res2 k2 off2

/-- The wrapper for `vbrChunksFixed` with the same width guard and fuel as
`Cursor.readVbr`. -/
def readVbrChunkSpec (buf : List Nat) (off w : Nat) : Except BErr Nat × Nat :=
  if w < 1 ∨ 32 < w then (.error .vbrOverflow, off)
  else vbrChunksFixed buf w (8 * buf.length + 2) 0 0 off

/-- Spec-side restatement of the claim exactly as stated, with the
`⌈64/(w-1)⌉` chunk bound: fails with `VbrOverflow` when more than
`⌈64/(w-1)⌉` chunks are consumed.  (Under this bound the shift amount
never reaches 64 before the failure fires, so the mod-64 reduction is
inert here and the accumulation matches the claim's words.) -/
def vbrChunksClaimed (buf : List Nat) (w : Nat) : Nat → Nat → Nat → Nat → Except BErr Nat × Nat
  | 0, _, _, off => (.error .vbrOverflow, off)
  | fuel + 1, res, k, off =>
    match Cursor.read buf off w with
    | (.error e, off2) => (.error e, off2)
    | (.ok next, off2) =>
      let res2 := (res ||| ((next &&& (2 ^ (w - 1) - 1)) <<< (k * (w - 1) % 64))) % 2 ^ 64
      let k2 := k + 1
      if (64 + (w - 1) - 1) / (w - 1) < k2 then (.error .vbrOverflow, off2)
      else if next &&& 2 ^ (w - 1) = 0 then (.ok res2, off2)
      else vbrChunksClaimed buf w fuel res2 k2 off2

/-- The wrapper for `vbrChunksClaimed` with the same width guard and fuel. -/
def readVbrClaimSpec (buf : List Nat) (off w : Nat) : Except BErr Nat × Nat :=
  if w < 1 ∨ 32 < w then (.error .vbrOverflow, off)
  else vbrChunksClaimed buf w (8 * buf.length + 2) 0 0 off

/-- Lift of `self.cursor.read(n)?` in `src/read.rs` (`bits::Error` is wrapped
into `Error::ReadBits` by the `From` impl). -/
def rRead (buf : List Nat) (off n : Nat) : Except Error (Nat × Nat) :=
  match Cursor.read buf off n with
  | (.ok v, off2) => .ok (v, off2)
  | (.error e, _) => .error (.readBits e)

/-- Lift of `self.cursor.read_vbr(n)?` in `src/read.rs`. -/
def rReadVbr (buf : List Nat) (off n : Nat) : Except Error (Nat × Nat) :=
  match Cursor.readVbr buf off n with
  | (.ok v, off2) => .ok (v, off2)
  | (.error e, _) => .error (.readBits e)

/-- Lift of `self.cursor.advance(32)?` in `src/read.rs`: aligning the cursor
to the next 32-bit boundary.  The `Bits`-based cursor variant that
`src/read.rs` uses is not under `src/`; its `advance(32)` is modelled by
`Cursor::align32` of `src/bits.rs`, which the spec describes identically
(§4.A: advance to the next multiple of 32, no-op when aligned, fail when
past the buffer). -/
def rAlign32 (buf : List Nat) (off : Nat) : Except Error Nat :=
  match Cursor.align32 buf off with
  | (.ok _, off2) => .ok off2
  | (.error e, _) => .error (.readBits e)

/-- Lift of `self.cursor.skip_bytes(n)?` in `src/read.rs`. -/
def rSkipBytes (buf : List Nat) (off n : Nat) : Except Error Nat :=
  match Cursor.skipBytes buf off n with
  | (.ok _, off2) => .ok off2
  | (.error e, _) => .error (.readBits e)

/-- Lift of `self.cursor.read_bytes(n)?` in `src/read.rs`. -/
def rReadBytes (buf : List Nat) (off n : Nat) : Except Error (List Nat × Nat) :=
  match Cursor.readBytes buf off n with
  | (.ok bs, off2) => .ok (bs, off2)
  | (.error e, _) => .error (.readBits e)

/-- `BitStreamReader::read_abbrev_op` from `src/read.rs`.  The recursion
(`3 => Array(read_abbrev_op()?)`) is bounded by fuel; each level first
consumes 4 bits, so the fuel `8 * |buf| + 1` passed by `readAbbrevOpTop`
can never run out. -/
def readAbbrevOp (buf : List Nat) : Nat → Nat → Except Error (Operand × Nat)
  | 0, _ => .error (.readBits .bufferOverflow)
  | fuel + 1, off =>
    match rRead buf off 1 with
    | .error e => .error e
    | .ok (isLit, off1) =>
      if isLit = 1 then
        match rReadVbr buf off1 8 with
        | .error e => .error e
        | .ok (v, off2) => .ok (.literal v, off2)
      else
        match rRead buf off1 3 with
        | .error e => .error e
        | .ok (opType, off2) =>
          if opType = 1 then
            match rReadVbr buf off2 5 with
            | .error e => .error e
            | .ok (v, off3) => .ok (.fixed (v % 256), off3)
          else if opType = 2 then
            match rReadVbr buf off2 5 with
            | .error e => .error e
            | .ok (v, off3) => .ok (.vbr (v % 256), off3)
          else if opType = 3 then
            match readAbbrevOp buf fuel off2 with
            | .error e => .error e
            | .ok (el, off3) => .ok (.array el, off3)
          else if opType = 4 then .ok (.char6, off2)
          else if opType = 5 then .ok (.blob, off2)
          else .error .invalidAbbrev

/-- `read_abbrev_op` with its canonical (sufficient) fuel. -/
def readAbbrevOpTop (buf : List Nat) (off : Nat) : Except Error (Operand × Nat) :=
  readAbbrevOp buf (8 * buf.length + 1) off

/-- The `for i in 0..num_ops` loop of `BitStreamReader::read_abbrev`.
`r` counts the remaining iterations (`numOps - i`).  The source compares
`i == num_ops - 2` and `i != num_ops - 1` on usize; with `num_ops = 1` and
an array operand `num_ops - 2` wraps (debug Rust panics there), so the
comparisons are embedded as `i + 2 = numOps` and `i + 1 = numOps`. -/
def readAbbrevGo (buf : List Nat) (numOps : Nat) : Nat → Nat → List Operand → Nat → Except Error (List Operand × Nat)
  | 0, _, acc, off => .ok (acc, off)
  | r + 1, i, acc, off =>
    match readAbbrevOpTop buf off with
    | .error e => .error e
    | .ok (op, off2) =>
      let acc2 := acc ++ [op]
      if op.isArray then
        if i + 2 = numOps then .ok (acc2, off2) else .error .invalidAbbrev
      else if op.isBlob ∧ i + 1 ≠ numOps then .error .invalidAbbrev
      else readAbbrevGo buf numOps r (i + 1) acc2 off2

/-- `BitStreamReader::read_abbrev` from `src/read.rs`. -/
def readAbbrev (buf : List Nat) (numOps off : Nat) : Except Error (Abbreviation × Nat) :=
  if numOps = 0 then .error .invalidAbbrev
  else
    match readAbbrevGo buf numOps numOps 0 [] off with
    | .error e => .error e
    | .ok (ops, off2) => .ok (⟨ops⟩, off2)

/-- `BitStreamReader::read_single_abbreviated_record_operand` from
`src/read.rs`. -/
def readSingleOp (buf : List Nat) (op : Operand) (off : Nat) : Except Error (Nat × Nat) :=
  match op with
  | .char6 =>
    match rRead buf off 6 with
    | .error e => .error e
    | .ok (v, off2) =>
      match char6Decode v with
      | .error e => .error e
      | .ok c => .ok (c, off2)
  | .literal v => .ok (v, off)
  | .fixed w => rRead buf off w
  | .vbr w => rReadVbr buf off w
  | .array _ | .blob => .error .invalidAbbrev

/-- The `for op in &abbrev.operands[1..lri]` loop of
`read_abbreviated_record`. -/
def readFields (buf : List Nat) : List Operand → Nat → Except Error (List Nat × Nat)
  | [], off => .ok ([], off)
  | op :: rest, off =>
    match readSingleOp buf op off with
    | .error e => .error e
    | .ok (v, off2) =>
      match readFields buf rest off2 with
      | .error e => .error e
      | .ok (vs, off3) => .ok (v :: vs, off3)

/-- The `for _ in 0..length` element loop of the `Array` payload in
`read_abbreviated_record`. -/
def readElems (buf : List Nat) (el : Operand) : Nat → Nat → Except Error (List Nat × Nat)
  | 0, off => .ok ([], off)
  | n + 1, off =>
    match readSingleOp buf el off with
    | .error e => .error e
    | .ok (v, off2) =>
      match readElems buf el n off2 with
      | .error e => .error e
      | .ok (vs, off3) => .ok (v :: vs, off3)

/-- `Payload` from `src/bitcode.rs`.  `Char6String` holds the decoded ASCII
bytes (the source collects them into a `String`; all of them are ASCII). -/
inductive Payload where
  | array (elements : List Nat)
  | char6String (bytes : List Nat)
  | blob (bytes : List Nat)
deriving DecidableEq

/-- `Record` from `src/bitcode.rs`. -/
structure Record where
  id : Nat
  fields : List Nat
  payload : Option Payload
deriving DecidableEq

/-- `BitStreamReader::read_abbreviated_record` from `src/read.rs`.
The source calls `.first().unwrap()` on the operand list; the empty case
(unreachable for abbreviations produced by `read_abbrev`) is embedded as
`InvalidAbbrev`, as is the source's `unreachable!()` arm. -/
def readAbbreviatedRecord (buf : List Nat) (ab : Abbreviation) (off : Nat) : Except Error (Record × Nat) :=
  match ab.operands with
  | [] => .error .invalidAbbrev
  | op0 :: rest =>
    match readSingleOp buf op0 off with
    | .error e => .error e
    | .ok (code, off1) =>
      let lastOp := (op0 :: rest).getLast (List.cons_ne_nil op0 rest)
      let fieldOps := if lastOp.isPayload then rest.dropLast else rest
      match readFields buf fieldOps off1 with
      | .error e => .error e
      | .ok (fields, off2) =>
        if lastOp.isPayload then
          match lastOp with
          | .array el =>
            match rReadVbr buf off2 6 with
            | .error e => .error e
            | .ok (len, off3) =>
              match readElems buf el len off3 with
              | .error e => .error e
              | .ok (elems, off4) =>
                if el = .char6 then .ok (⟨code, fields, some (.char6String elems)⟩, off4)
                else .ok (⟨code, fields, some (.array elems)⟩, off4)
          | .blob =>
            match rReadVbr buf off2 6 with
            | .error e => .error e
            | .ok (len, off3) =>
              match rAlign32 buf off3 with
              | .error e => .error e
              | .ok off4 =>
                match rReadBytes buf off4 len with
                | .error e => .error e
                | .ok (data, off5) =>
                  match rAlign32 buf off5 with
                  | .error e => .error e
                  | .ok off6 => .ok (⟨code, fields, some (.blob data)⟩, off6)
          | _ => .error .invalidAbbrev
        else .ok (⟨code, fields, none⟩, off2)

/-- The `for _ in 0..num_ops { operands.push(read_vbr(6)?) }` loop of the
unabbreviated-record paths in `src/read.rs`. -/
def readVbrList (buf : List Nat) : Nat → Nat → Except Error (List Nat × Nat)
  | 0, off => .ok ([], off)
  | n + 1, off =>
    match rReadVbr buf off 6 with
    | .error e => .error e
    | .ok (v, off2) =>
      match readVbrList buf n off2 with
      | .error e => .error e
      | .ok (vs, off3) => .ok (v :: vs, off3)

/-- `BlockInfo` from `src/bitcode.rs`.  Names are kept as raw bytes; the
source re-encodes them with `String::from_utf8(...).unwrap_or("<invalid>")`,
which no claim observes. -/
structure BlockInfo where
  name : List Nat
  recordNames : List (Nat × List Nat)
deriving DecidableEq

/-- The mutable state of `BitStreamReader` (`block_info` and
`global_abbrevs`); the `HashMap`s are modelled as association lists, whose
iteration order the source never observes. -/
structure RState where
  blockInfo : List (Nat × BlockInfo)
  globalAbbrevs : List (Nat × List Abbreviation)
deriving DecidableEq

/-- `self.global_abbrevs.get(&id).cloned()`. -/
def lookupGlobal (s : RState) (id : Nat) : Option (List Abbreviation) :=
  (s.globalAbbrevs.find? (fun p => p.1 == id)).map Prod.snd

/-- `self.global_abbrevs.entry(id).or_insert_with(Vec::new).push(abbrev)`. -/
def addGlobalAbbrev (s : RState) (id : Nat) (ab : Abbreviation) : RState :=
  { s with
    globalAbbrevs :=
      if (s.globalAbbrevs.find? (fun p => p.1 == id)).isSome then
        s.globalAbbrevs.map (fun p => if p.1 == id then (p.1, p.2 ++ [ab]) else p)
      else s.globalAbbrevs ++ [(id, [ab])] }

/-- `self.block_info.entry(id).or_insert_with(BlockInfo::default)` followed
by a mutation of the entry. -/
def updateBlockInfo (s : RState) (id : Nat) (f : BlockInfo → BlockInfo) : RState :=
  { s with
    blockInfo :=
      if (s.blockInfo.find? (fun p => p.1 == id)).isSome then
        s.blockInfo.map (fun p => if p.1 == id then (p.1, f p.2) else p)
      else s.blockInfo ++ [(id, f ⟨[], []⟩)] }

/-- `block_info.record_names.insert(record_id, name)` (`HashMap::insert`
replaces an existing key). -/
def insertRecordName (m : List (Nat × List Nat)) (k : Nat) (v : List Nat) : List (Nat × List Nat) :=
  if (m.find? (fun p => p.1 == k)).isSome then
    m.map (fun p => if p.1 == k then (p.1, v) else p)
  else m ++ [(k, v)]

/-- The visitor callbacks that `read_block` issues, recorded as a log:
`should_enter_block`+recursion, `did_exit_block`, and `visit`. -/
inductive Event where
  | enterBlock (id : Nat)
  | exitBlock
  | visit (r : Record)
deriving DecidableEq

/-- `BitStreamReader::TOP_LEVEL_BLOCK_ID = u64::MAX`. -/
def topLevelBlockId : Nat := 2 ^ 64 - 1

/-- `BitStreamReader::read_block_info_block` from `src/read.rs`.  The
recursion replaces the source's `loop`; the fuel cannot run out before a
read fails because every iteration consumes at least one bit.  `cur` is
`current_block_id`. -/
def readBlockInfoBlock (buf : List Nat) : Nat → RState → Option Nat → Nat → Nat → Except Error (RState × Nat)
  | 0, _, _, _, _ => .error (.readBits .bufferOverflow)
  | fuel + 1, s, cur, w, off =>
    match rRead buf off w with
    | .error e => .error e
    | .ok (aid, off1) =>
      if aid = 0 then
        match rAlign32 buf off1 with
        | .error e => .error e
        | .ok off2 => .ok (s, off2)
      else if aid = 1 then .error .nestedBlockInBlockInfo
      else if aid = 2 then
        match cur with
        | none => .error .missingSetBid
        | some bid =>
          match rReadVbr buf off1 5 with
          | .error e => .error e
          | .ok (numOps, off2) =>
            match readAbbrev buf numOps off2 with
            | .error e => .error e
            | .ok (ab, off3) =>
              readBlockInfoBlock buf fuel (addGlobalAbbrev s bid ab) cur w off3
      else if aid = 3 then
        match rReadVbr buf off1 6 with
        | .error e => .error e
        | .ok (code, off2) =>
          match rReadVbr buf off2 6 with
          | .error e => .error e
          | .ok (numOps, off3) =>
            match readVbrList buf numOps off3 with
            | .error e => .error e
            | .ok (ops, off4) =>
              if 256 ≤ code then .error (.invalidBlockInfoRecord code)
              else if code = 1 then
                if ops.length ≠ 1 then .error (.invalidBlockInfoRecord code)
                else readBlockInfoBlock buf fuel s ops.head? w off4
              else if code = 2 then
                match cur with
                | none => .error .missingSetBid
                | some bid =>
                  readBlockInfoBlock buf fuel
                    (updateBlockInfo s bid (fun bi => { bi with name := ops.map (· % 256) }))
                    cur w off4
              else if code = 3 then
                match cur with
                | none => .error .missingSetBid
                | some bid =>
                  match ops.head? with
                  | none => .error (.invalidBlockInfoRecord code)
                  | some rid =>
                    readBlockInfoBlock buf fuel
                      (updateBlockInfo s bid (fun bi =>
                        { bi with recordNames :=
                            insertRecordName bi.recordNames rid ((ops.drop 1).map (· % 256)) }))
                      cur w off4
              else .error (.invalidBlockInfoRecord code)
      else .error (.noSuchAbbrev 0 aid)

/-- `BitStreamReader::read_block` from `src/read.rs`.  The visitor is
abstracted by the only callback that influences parsing
(`should_enter_block`, the `policy`); the other callbacks are recorded in
the returned event log.  The recursion replaces both the source's `while`
loop and its recursive call; the fuel cannot run out before a read fails
because every loop iteration consumes at least one bit. -/
def readBlock (buf : List Nat) (policy : Nat → Bool) : Nat → RState → Nat → Nat → Nat → Except Error (RState × Nat × List Event)
  | 0, _, _, _, _ => .error (.readBits .bufferOverflow)
  | fuel + 1, s, id, w, off =>
    if 8 * buf.length ≤ off then
      if id = topLevelBlockId then .ok (s, off, []) else .error (.missingEndBlock id)
    else
      match rRead buf off w with
      | .error e => .error e
      | .ok (aid, off1) =>
        if aid = 0 then
          match rAlign32 buf off1 with
          | .error e => .error e
          | .ok off2 => .ok (s, off2, [.exitBlock])
        else if aid = 1 then
          match rReadVbr buf off1 8 with
          | .error e => .error e
          | .ok (blockId, off2) =>
            match rReadVbr buf off2 4 with
            | .error e => .error e
            | .ok (newW, off3) =>
              match rAlign32 buf off3 with
              | .error e => .error e
              | .ok off4 =>
                match rRead buf off4 32 with
                | .error e => .error e
                | .ok (lenWords, off5) =>
                  if blockId = 0 then
                    match readBlockInfoBlock buf fuel s none newW off5 with
                    | .error e => .error e
                    | .ok (s1, off6) =>
                      match readBlock buf policy fuel s1 id w off6 with
                      | .error e => .error e
                      | .ok (s2, off7, evs) => .ok (s2, off7, evs)
                  else if policy blockId then
                    match readBlock buf policy fuel s blockId newW off5 with
                    | .error e => .error e
                    | .ok (s1, off6, evs1) =>
                      match readBlock buf policy fuel s1 id w off6 with
                      | .error e => .error e
                      | .ok (s2, off7, evs2) =>
                        .ok (s2, off7, .enterBlock blockId :: (evs1 ++ evs2))
                  else
                    match rSkipBytes buf off5 (lenWords * 4) with
                    | .error e => .error e
                    | .ok off6 => readBlock buf policy fuel s id w off6
        else if aid = 2 then
          match rReadVbr buf off1 5 with
          | .error e => .error e
          | .ok (numOps, off2) =>
            match readAbbrev buf numOps off2 with
            | .error e => .error e
            | .ok (ab, off3) => readBlock buf policy fuel (addGlobalAbbrev s id ab) id w off3
        else if aid = 3 then
          match rReadVbr buf off1 6 with
          | .error e => .error e
          | .ok (code, off2) =>
            match rReadVbr buf off2 6 with
            | .error e => .error e
            | .ok (numOps, off3) =>
              match readVbrList buf numOps off3 with
              | .error e => .error e
              | .ok (ops, off4) =>
                match readBlock buf policy fuel s id w off4 with
                | .error e => .error e
                | .ok (s1, off5, evs) => .ok (s1, off5, .visit ⟨code, ops, none⟩ :: evs)
        else
          match lookupGlobal s id with
          | none => .error (.noSuchAbbrev id aid)
          | some abbrevs =>
            if h : aid - 4 < abbrevs.length then
              match readAbbreviatedRecord buf abbrevs[aid - 4] off1 with
              | .error e => .error e
              | .ok (record, off2) =>
                match readBlock buf policy fuel s id w off2 with
                | .error e => .error e
                | .ok (s1, off3, evs) => .ok (s1, off3, .visit record :: evs)
            else .error (.noSuchAbbrev id aid)

/-- `RecordIter::read_scalar_operand` from `src/bitcode.rs` (the 6-bit char
value is cast `as u8` before the table lookup). -/
def RecordIter.readScalarOperand (buf : List Nat) (op : ScalarOperand) (off : Nat) : Except Error Nat × Nat :=
  match op with
  | .char6 =>
    match Cursor.read buf off 6 with
    | (.error e, off2) => (.error (.readBits e), off2)
    | (.ok v, off2) =>
      match char6Decode (v % 256) with
      | .error e => (.error e, off2)
      | .ok c => (.ok c, off2)
  | .literal v => (.ok v, off)
  | .fixed w =>
    match Cursor.read buf off w with
    | (.error e, off2) => (.error (.readBits e), off2)
    | (.ok v, off2) => (.ok v, off2)
  | .vbr w =>
    match Cursor.readVbr buf off w with
    | (.error e, off2) => (.error (.readBits e), off2)
    | (.ok v, off2) => (.ok v, off2)

/-- The `Ops` state of a `RecordIter` from `src/bitcode.rs`: either an
abbreviated record with the index of the next field to read, or an
unabbreviated record with the number of fields left. -/
inductive Ops where
  | abbr (state : Nat) (ab : AbbreviationFP)
  | full (numOps : Nat)
deriving DecidableEq

/-- `RecordIter::next` from `src/bitcode.rs`.  The source bumps
`state`/`num_ops` before the read, so the counter moves even when the read
fails. -/
def RecordIter.next (buf : List Nat) (o : Ops) (off : Nat) : Except Error (Option Nat) × Ops × Nat :=
  match o with
  | .abbr st ab =>
    match ab.fields[st]? with
    | none => (.ok none, o, off)
    | some op =>
      match RecordIter.readScalarOperand buf op off with
      | (.error e, off2) => (.error e, .abbr (st + 1) ab, off2)
      | (.ok v, off2) => (.ok (some v), .abbr (st + 1) ab, off2)
  | .full n =>
    match n with
    | 0 => (.ok none, o, off)
    | m + 1 =>
      match Cursor.readVbr buf off 6 with
      | (.error e, off2) => (.error (.readBits e), .full m, off2)
      | (.ok v, off2) => (.ok (some v), .full m, off2)

/-- `RecordIter::take_payload_operand` from `src/bitcode.rs`: marks the
payload as read and returns it when all fields have been consumed. -/
def RecordIter.takePayloadOperand (st : Nat) (ab : AbbreviationFP) : Except Error (Option PayloadOperand) × Nat :=
  if st = ab.fields.length then
    (.ok ab.payload, if ab.payload.isSome then st + 1 else st)
  else (.error (.unexpectedOperand ((ab.fields[st]?).map .scalar)), st)

/-- `RecordIter::blob` from `src/bitcode.rs`. -/
def RecordIter.blob (buf : List Nat) (o : Ops) (off : Nat) : Except Error (List Nat) × Ops × Nat :=
  match o with
  | .abbr st ab =>
    match RecordIter.takePayloadOperand st ab with
    | (.error e, st2) => (.error e, .abbr st2 ab, off)
    | (.ok p, st2) =>
      match p with
      | some .blob =>
        match Cursor.readVbr buf off 6 with
        | (.error e, off2) => (.error (.readBits e), .abbr st2 ab, off2)
        | (.ok len, off2) =>
          match Cursor.align32 buf off2 with
          | (.error e, off3) => (.error (.readBits e), .abbr st2 ab, off3)
          | (.ok _, off3) =>
            match Cursor.readBytes buf off3 len with
            | (.error e, off4) => (.error (.readBits e), .abbr st2 ab, off4)
            | (.ok data, off4) =>
              match Cursor.align32 buf off4 with
              | (.error e, off5) => (.error (.readBits e), .abbr st2 ab, off5)
              | (.ok _, off5) => (.ok data, .abbr st2 ab, off5)
      | _ => (.error (.unexpectedOperand (p.map .payload)), .abbr st2 ab, off)
  | .full _ => (.error (.unexpectedOperand none), o, off)

/-- The `for _ in 0..len` element loop of `RecordIter::array` (the
`out.len() == out.capacity()` guard in the source is dead code: the vector
is created with capacity `len`). -/
def RecordIter.readScalarList (buf : List Nat) (op : ScalarOperand) : Nat → Nat → Except Error (List Nat) × Nat
  | 0, off => (.ok [], off)
  | n + 1, off =>
    match RecordIter.readScalarOperand buf op off with
    | (.error e, off2) => (.error e, off2)
    | (.ok v, off2) =>
      match RecordIter.readScalarList buf op n off2 with
      | (.error e, off3) => (.error e, off3)
      | (.ok vs, off3) => (.ok (v :: vs), off3)

/-- The `for _ in 0..len { out.push(read_vbr(6)?) }` fallback loop of
`RecordIter::array` for unabbreviated records. -/
def RecordIter.readVbr6List (buf : List Nat) : Nat → Nat → Except Error (List Nat) × Nat
  | 0, off => (.ok [], off)
  | n + 1, off =>
    match Cursor.readVbr buf off 6 with
    | (.error e, off2) => (.error (.readBits e), off2)
    | (.ok v, off2) =>
      match RecordIter.readVbr6List buf n off2 with
      | (.error e, off3) => (.error e, off3)
      | (.ok vs, off3) => (.ok (v :: vs), off3)

/-- `RecordIter::array` from `src/bitcode.rs`. -/
def RecordIter.array (buf : List Nat) (o : Ops) (off : Nat) : Except Error (List Nat) × Ops × Nat :=
  match o with
  | .abbr st ab =>
    match RecordIter.takePayloadOperand st ab with
    | (.error e, st2) => (.error e, .abbr st2 ab, off)
    | (.ok p, st2) =>
      match p with
      | some (.array op) =>
        match Cursor.readVbr buf off 6 with
        | (.error e, off2) => (.error (.readBits e), .abbr st2 ab, off2)
        | (.ok len, off2) =>
          match RecordIter.readScalarList buf op len off2 with
          | (.error e, off3) => (.error e, .abbr st2 ab, off3)
          | (.ok out, off3) => (.ok out, .abbr st2 ab, off3)
      | _ => (.error (.unexpectedOperand (p.map .payload)), .abbr st2 ab, off)
  | .full n =>
    match RecordIter.readVbr6List buf n off with
    | (.error e, off2) => (.error e, .full 0, off2)
    | (.ok out, off2) => (.ok out, .full 0, off2)

/-- The Char6 loop of `RecordIter::string` (same table, 6-bit reads cast
`as u8`). -/
def RecordIter.char6List (buf : List Nat) : Nat → Nat → Except Error (List Nat) × Nat
  | 0, off => (.ok [], off)
  | n + 1, off =>
    match Cursor.read buf off 6 with
    | (.error e, off2) => (.error (.readBits e), off2)
    | (.ok v, off2) =>
      match char6Decode (v % 256) with
      | .error e => (.error e, off2)
      | .ok c =>
        match RecordIter.char6List buf n off2 with
        | (.error e, off3) => (.error e, off3)
        | (.ok cs, off3) => (.ok (c :: cs), off3)

/-- The `Fixed(width @ 6..=8)` loop of `RecordIter::string` (`read(width)?
as u8`). -/
def RecordIter.fixedList (buf : List Nat) (w : Nat) : Nat → Nat → Except Error (List Nat) × Nat
  | 0, off => (.ok [], off)
  | n + 1, off =>
    match Cursor.read buf off w with
    | (.error e, off2) => (.error (.readBits e), off2)
    | (.ok v, off2) =>
      match RecordIter.fixedList buf w n off2 with
      | (.error e, off3) => (.error e, off3)
      | (.ok vs, off3) => (.ok (v % 256 :: vs), off3)

/-- The unabbreviated fallback loop of `RecordIter::string`:
`u8::try_from(read_vbr(6)?)` with `ValueOverflow` above 255. -/
def RecordIter.byteVbr6List (buf : List Nat) : Nat → Nat → Except Error (List Nat) × Nat
  | 0, off => (.ok [], off)
  | n + 1, off =>
    match Cursor.readVbr buf off 6 with
    | (.error e, off2) => (.error (.readBits e), off2)
    | (.ok v, off2) =>
      if 256 ≤ v then (.error .valueOverflow, off2)
      else
        match RecordIter.byteVbr6List buf n off2 with
        | (.error e, off3) => (.error e, off3)
        | (.ok vs, off3) => (.ok (v :: vs), off3)

/-- `RecordIter::string` from `src/bitcode.rs` (note the extra
`*state += 1` the source performs after `take_payload_operand`). -/
def RecordIter.string (buf : List Nat) (o : Ops) (off : Nat) : Except Error (List Nat) × Ops × Nat :=
  match o with
  | .abbr st ab =>
    match RecordIter.takePayloadOperand st ab with
    | (.error e, st2) => (.error e, .abbr st2 ab, off)
    | (.ok p, st2) =>
      match p with
      | some (.array el) =>
        let st3 := st2 + 1
        match Cursor.readVbr buf off 6 with
        | (.error e, off2) => (.error (.readBits e), .abbr st3 ab, off2)
        | (.ok len, off2) =>
          match el with
          | .char6 =>
            match RecordIter.char6List buf len off2 with
            | (.error e, off3) => (.error e, .abbr st3 ab, off3)
            | (.ok out, off3) => (.ok out, .abbr st3 ab, off3)
          | .fixed w =>
            if 6 ≤ w ∧ w ≤ 8 then
              match RecordIter.fixedList buf w len off2 with
              | (.error e, off3) => (.error e, .abbr st3 ab, off3)
              | (.ok out, off3) => (.ok out, .abbr st3 ab, off3)
            else (.error (.unexpectedOperand (some (.scalar el))), .abbr st3 ab, off2)
          | _ => (.error (.unexpectedOperand (some (.scalar el))), .abbr st3 ab, off2)
      | _ => (.error (.unexpectedOperand (p.map .payload)), .abbr st2 ab, off)
  | .full n =>
    match RecordIter.byteVbr6List buf n off with
    | (.error e, off2) => (.error e, .full 0, off2)
    | (.ok out, off2) => (.ok out, .full 0, off2)

/-- `RecordIter::payload` from `src/bitcode.rs`.  In the `Array(Char6)`
branch the source's `String::from_utf8` cannot fail: the Char6 loop of
`string` yields only ASCII bytes. -/
def RecordIter.payload (buf : List Nat) (o : Ops) (off : Nat) : Except Error (Option Payload) × Ops × Nat :=
  match o with
  | .abbr st ab =>
    if ab.fields.length < st then (.ok none, o, off)
    else
      match ab.payload with
      | some .blob =>
        match RecordIter.blob buf o off with
        | (.error e, o2, off2) => (.error e, o2, off2)
        | (.ok data, o2, off2) => (.ok (some (.blob data)), o2, off2)
      | some (.array .char6) =>
        match RecordIter.string buf o off with
        | (.error e, o2, off2) => (.error e, o2, off2)
        | (.ok bytes, o2, off2) => (.ok (some (.char6String bytes)), o2, off2)
      | some (.array _) =>
        match RecordIter.array buf o off with
        | (.error e, o2, off2) => (.error e, o2, off2)
        | (.ok out, o2, off2) => (.ok (some (.array out)), o2, off2)
      | none => (.ok none, o, off)
  | .full _ => (.ok none, o, off)

/-- Number of unread fields (`RecordIter::len`). -/
def RecordIter.remOps : Ops → Nat
  | .abbr st ab => ab.fields.length - st
  | .full n => n

/-- The `while let Ok(Some(_)) = self.next() {}` loop of
`impl Drop for RecordIter`.  Each successful step reads one field, so the
fuel `remOps + 1` cannot run out. -/
def RecordIter.drainLoop (buf : List Nat) : Nat → Ops → Nat → Ops × Nat
  | 0, o, off => (o, off)
  | fuel + 1, o, off =>
    match RecordIter.next buf o off with
    | (.ok (some _), o2, off2) => RecordIter.drainLoop buf fuel o2 off2
    | (_, o2, off2) => (o2, off2)

/-- `impl Drop for RecordIter` from `src/bitcode.rs`: drain the remaining
fields, then — for an abbreviated record with a payload — read (and
discard) the payload.  Returns the final cursor offset. -/
def RecordIter.dropRun (buf : List Nat) (o : Ops) (off : Nat) : Nat :=
  match RecordIter.drainLoop buf (RecordIter.remOps o + 1) o off with
  | (o2, off2) =>
    match o2 with
    | .abbr _ ab =>
      if ab.payload.isSome then (RecordIter.payload buf o2 off2).2.2 else off2
    | .full _ => off2

/-- The field half of driving a `RecordIter` to completion
(`while let Some(f) = self.next()? { fields.push(f) }`, as in
`RecordIter::into_record`). -/
def RecordIter.driveFields (buf : List Nat) : Nat → Ops → Nat → Except Error (List Nat × Ops × Nat)
  | 0, _, _ => .error (.readBits .bufferOverflow)
  | fuel + 1, o, off =>
    match RecordIter.next buf o off with
    | (.ok (some v), o2, off2) =>
      match RecordIter.driveFields buf fuel o2 off2 with
      | .error e => .error e
      | .ok (vs, o3, off3) => .ok (v :: vs, o3, off3)
    | (.ok none, o2, off2) => .ok ([], o2, off2)
    | (.error e, _, _) => .error e

/-- Driving a `RecordIter` to completion: all remaining fields, then the
optional payload. -/
def RecordIter.driveToCompletion (buf : List Nat) (o : Ops) (off : Nat) : Except Error (List Nat × Option Payload × Nat) :=
  match RecordIter.driveFields buf (RecordIter.remOps o + 1) o off with
  | .error e => .error e
  | .ok (fs, o2, off2) =>
    match RecordIter.payload buf o2 off2 with
    | (.error e, _, _) => .error e
    | (.ok p, _, off3) => .ok (fs, p, off3)

/-! ## Theorems -/

/-- Claim C10: whenever `Cursor::read(n)` returns an error — `n = 0`,
`n > 64`, or fewer than `n` bits remaining — the bit offset is unchanged,
so any subsequent `read` or `peek` observes the same state. -/
theorem c10_read_error_preserves_cursor (buf : List Nat) (off n : Nat) (e : BErr) (off2 : Nat)
    (h : Cursor.read buf off n = (.error e, off2)) :
    off2 = off ∧ ∀ m, Cursor.read buf off2 m = Cursor.read buf off m ∧
      Cursor.peek buf off2 m = Cursor.peek buf off m := by
  have hoff : off2 = off := by
    unfold Cursor.read at h
    split at h
    · exact (Prod.mk.injEq _ _ _ _ ▸ h).2.symm ▸ rfl
    · revert h
      cases Cursor.peek buf off n with
      | error e2 => intro h; exact congrArg Prod.snd h |>.symm
      | ok v => intro h; exact absurd (congrArg Prod.fst h) (by simp)
  exact ⟨hoff, fun m => ⟨by rw [hoff], by rw [hoff]⟩⟩

/-- Witness for C10 at a concrete input: reading 5 bits from an empty
buffer fails and the offset stays 0. -/
theorem c10_witness : (Cursor.read ([] : List Nat) 0 5).2 = 0 := by
  have h : Cursor.read ([] : List Nat) 0 5 = (.error .bufferOverflow, 0) := by decide
  exact (c10_read_error_preserves_cursor [] 0 5 .bufferOverflow 0 h).1 ▸ (congrArg Prod.snd h)

/-- Claim C8: the Char6 decoder maps 0..=25 to `a..z`, 26..=51 to `A..Z`,
52..=61 to `0..9`, 62 to `.` and 63 to `_`, and is a bijection from the 64
code points onto those 64 distinct ASCII characters. -/
theorem c8_char6_bijection :
    (List.range 64).map char6Decode = char6Alphabet.map Except.ok ∧
      char6Alphabet.Nodup ∧ char6Alphabet.length = 64 := by
  decide

/-- Claim C9: for every wire value `v < 2^64` the signed accessor returns
`v >> 1` when the low bit is clear, `-(v >> 1)` when the low bit is set and
`v ≠ 1`, and `i64::MIN = -(2^63)` for `v = 1`; the decoder recovers the full
signed 64-bit range. -/
theorem c9_i64_decode :
    (∀ v : Nat, v < 2 ^ 64 →
      (v % 2 = 0 → i64Decode v = ((v >>> 1 : Nat) : Int)) ∧
      (v % 2 = 1 → v ≠ 1 → i64Decode v = -((v >>> 1 : Nat) : Int)) ∧
      (v = 1 → i64Decode v = -(2 ^ 63)) ∧
      (-(2 ^ 63) ≤ i64Decode v ∧ i64Decode v < 2 ^ 63)) ∧
    (∀ t : Int, -(2 ^ 63) ≤ t → t < 2 ^ 63 → ∃ v : Nat, v < 2 ^ 64 ∧ i64Decode v = t) := by
  constructor
  · intro v hv
    have hs : (v >>> 1 : Nat) = v / 2 := by simpa using Nat.shiftRight_eq_div_pow v 1
    have hlt : v / 2 < 2 ^ 63 := by omega
    refine ⟨?_, ?_, ?_, ?_⟩
    · intro h0; simp [i64Decode, h0]
    · intro h1 hne
      have h0 : ¬ v % 2 = 0 := by omega
      simp [i64Decode, h0, hne]
    · intro h1; subst h1; decide
    · by_cases h0 : v % 2 = 0
      · rw [show i64Decode v = ((v >>> 1 : Nat) : Int) by simp [i64Decode, h0], hs]
        constructor
        · have h2 : (0 : Int) ≤ ((v / 2 : Nat) : Int) := Int.ofNat_nonneg _
          omega
        · exact_mod_cast hlt
      · by_cases hne : v = 1
        · subst hne; constructor <;> decide
        · rw [show i64Decode v = -((v >>> 1 : Nat) : Int) by simp [i64Decode, h0, hne], hs]
          have h2 : ((v / 2 : Nat) : Int) < 2 ^ 63 := by exact_mod_cast hlt
          have h3 : (0 : Int) ≤ ((v / 2 : Nat) : Int) := Int.ofNat_nonneg _
          constructor <;> omega
  · intro t h1 h2
    rcases le_or_lt 0 t with hpos | hneg
    · refine ⟨2 * t.toNat, by omega, ?_⟩
      have hm : (2 * t.toNat) % 2 = 0 := by omega
      have hsh : ((2 * t.toNat) >>> 1 : Nat) = t.toNat := by
        rw [Nat.shiftRight_eq_div_pow, pow_one]; omega
      rw [show i64Decode (2 * t.toNat) = (((2 * t.toNat) >>> 1 : Nat) : Int) by
        simp [i64Decode, hm], hsh]
      omega
    · rcases eq_or_lt_of_le h1 with hmin | hgt
      · refine ⟨1, by norm_num, ?_⟩
        rw [← hmin]; rfl
      · refine ⟨2 * (-t).toNat + 1, by omega, ?_⟩
        have hm : ¬ (2 * (-t).toNat + 1) % 2 = 0 := by omega
        have hne : (2 * (-t).toNat + 1) ≠ 1 := by omega
        have hsh : ((2 * (-t).toNat + 1) >>> 1 : Nat) = (-t).toNat := by
          rw [Nat.shiftRight_eq_div_pow, pow_one]; omega
        rw [show i64Decode (2 * (-t).toNat + 1) = -(((2 * (-t).toNat + 1) >>> 1 : Nat) : Int) by
          simp [i64Decode, hm, hne], hsh]
        omega

/-- Witness for C9 at concrete inputs: `v = 5` decodes to `-2`, and `t = -3`
is recovered by some wire value. -/
theorem c9_witness : i64Decode 5 = -2 ∧ ∃ v : Nat, v < 2 ^ 64 ∧ i64Decode v = -3 := by
  constructor
  · have h := (c9_i64_decode.1 5 (by norm_num)).2.1 (by norm_num) (by norm_num)
    rw [show ((5 : Nat) >>> 1) = 2 from rfl] at h
    simpa using h
  · exact c9_i64_decode.2 (-3) (by norm_num) (by norm_num)

/-- Claim C5 (general part): when the first little-endian u32 is
`0x0B17C0DE`, the buffer has at least 20 bytes, the `[offset, offset+size)`
window is in bounds and holds at least 4 bytes, `Signature::parse` reads
`version`, `offset`, `size`, `cpu_type` from words 1..4, takes `magic2`
from the first u32 of the window, and returns the window minus its first
4 bytes as the remaining stream. -/
theorem c5_signature_parse (data : List Nat) (version offset size cpuId magic2 : Nat)
    (hlen : 20 ≤ data.length)
    (hmagic : leU32 data = some 0x0B17C0DE)
    (hv : leU32 (data.drop 4) = some version)
    (ho : leU32 (data.drop 8) = some offset)
    (hs : leU32 (data.drop 12) = some size)
    (hc : leU32 (data.drop 16) = some cpuId)
    (hbound : offset + size ≤ data.length)
    (hm2 : leU32 ((data.drop offset).take size) = some magic2) :
    Signature.parse data =
      some (⟨0x0B17C0DE, magic2, version, offset, size, cpuId⟩,
        ((data.drop offset).take size).drop 4) := by
  unfold Signature.parse
  rw [hmagic]
  simp only [hv, ho, hs, hc, hm2]
  rw [if_neg (by omega), if_neg (by omega), if_pos hbound]

/-- Witness for C5: the 24-byte wrapped buffer whose header is
`magic = 0x0B17C0DE, version = 1, offset = 20, size = 4, cpu_type = 0`
followed by the inner word `42 43 C0 DE` parses to
`{magic = 0x0B17C0DE, magic2 = 0xDEC04342, version = 1, offset = 20,
size = 4, cpu_type = 0}` with an empty remaining stream (the claim's
bracket listing elides the zero cpu word; its stated output, with
`offset = 20`, `size = 4`, `cpu_type = 0`, `magic2 = 0xDEC04342` and an
empty remainder, determines exactly this buffer). -/
theorem c5_witness :
    Signature.parse
        [0xDE, 0xC0, 0x17, 0x0B, 1, 0, 0, 0, 0x14, 0, 0, 0, 4, 0, 0, 0,
          0, 0, 0, 0, 0x42, 0x43, 0xC0, 0xDE] =
      some (⟨0x0B17C0DE, 0xDEC04342, 1, 20, 4, 0⟩, []) := by
  have h := c5_signature_parse
    [0xDE, 0xC0, 0x17, 0x0B, 1, 0, 0, 0, 0x14, 0, 0, 0, 4, 0, 0, 0,
      0, 0, 0, 0, 0x42, 0x43, 0xC0, 0xDE]
    1 20 4 0 0xDEC04342 (by decide) (by decide) (by decide) (by decide)
    (by decide) (by decide) (by decide) (by decide)
  simpa using h

/-- The source's running-shift overflow test equals the chunk-count test of
the corrected claim. -/
theorem vbrThresholdIff (w k : Nat) (h1 : 1 ≤ w) (h2 : w ≤ 32) :
    (63 + w < (k + 1) * (w - 1)) ↔ (2 ≤ w ∧ 64 / (w - 1) + 1 < k + 1) := by
  rcases Nat.lt_or_ge w 2 with hw | hw
  · have hw1 : w = 1 := by omega
    subst hw1
    simp
  · have hd : 0 < w - 1 := by omega
    have hmul : (k + 1) * (w - 1) = k * (w - 1) + (w - 1) := by ring
    have hdiv : 64 / (w - 1) < k ↔ 64 < k * (w - 1) := Nat.div_lt_iff_lt_mul hd
    constructor
    · intro h
      have h64 : 64 < k * (w - 1) := by omega
      have hk := hdiv.mpr h64
      exact ⟨hw, by omega⟩
    · rintro ⟨hw2, hlt⟩
      have hk : 64 / (w - 1) < k := by omega
      have h64 := hdiv.mp hk
      omega

/-- The two loops coincide when the running shift is `k * (w - 1)`. -/
theorem readVbrLoop_eq_chunks (buf : List Nat) (w : Nat) (h1 : 1 ≤ w) (h2 : w ≤ 32) :
    ∀ fuel k res off,
      Cursor.readVbrLoop buf w fuel res (k * (w - 1)) off = vbrChunksFixed buf w fuel res k off := by
  intro fuel
  induction fuel with
  | zero => intro k res off; rfl
  | succ n ih =>
    intro k res off
    rw [Cursor.readVbrLoop, vbrChunksFixed]
    cases hr : Cursor.read buf off w with
    | mk r off2 =>
      cases r with
      | error e => rfl
      | ok next =>
        simp only
        have hacc : k * (w - 1) + (w - 1) = (k + 1) * (w - 1) := by ring
        rw [hacc]
        by_cases hov : 63 + w < (k + 1) * (w - 1)
        · rw [if_pos hov, if_pos ((vbrThresholdIff w k h1 h2).mp hov)]
        · rw [if_neg hov, if_neg (fun hc => hov ((vbrThresholdIff w k h1 h2).mpr hc))]
          by_cases hstop : next &&& 2 ^ (w - 1) = 0
          · rw [if_pos hstop, if_pos hstop]
          · rw [if_neg hstop, if_neg hstop]
            exact ih (k + 1) _ off2

/-- Claim C1 (amended): `read_vbr(w)` ORs the low `w-1` bits of each
`w`-bit chunk into the 64-bit result, least-significant chunk first, at
shift position `chunks-so-far · (w-1)` reduced mod 64 (u64 shift
semantics: the shift reaches 64 exactly when `w-1` divides 64, at chunk
`64/(w-1) + 1`, where that final chunk's payload lands in the low bits of
the result; debug builds panic there); it stops when a chunk's high bit is
clear, and fails with `VbrOverflow` exactly when more than
`⌊64/(w-1)⌋ + 1` chunks are consumed (never for `w = 1`); widths outside
`1..=32` fail immediately with `VbrOverflow`. -/
theorem c1_read_vbr_amended (buf : List Nat) (off w : Nat) :
    Cursor.readVbr buf off w = readVbrChunkSpec buf off w := by
  unfold Cursor.readVbr readVbrChunkSpec
  by_cases hw : w < 1 ∨ 32 < w
  · rw [if_pos hw, if_pos hw]
  · rw [if_neg hw, if_neg hw]
    have h1 : 1 ≤ w := by omega
    have h2 : w ≤ 32 := by omega
    have h := readVbrLoop_eq_chunks buf w h1 h2 (8 * buf.length + 2) 0 0 off
    rw [Nat.zero_mul] at h
    exact h

/-- Counterexample for C1 as stated: with `w = 5` and a stream of 16
continuation chunks followed by a final chunk (17 chunks total, more than
`⌈64/4⌉ = 16`), the code returns `Ok 0` whereas the claim's
`⌈64/(w-1)⌉`-chunk bound demands `VbrOverflow`; and with `w = 2` on
`[0xAA × 16, 0x01]` (65 chunks, more than `⌈64/1⌉ = 64`), release Rust
returns `Ok 1` — the 65th chunk's payload bit is ORed at masked shift
`64 mod 64 = 0` — instead of the demanded `VbrOverflow` (debug Rust panics
on that shift). -/
theorem c1_counterexample :
    (Cursor.readVbr [0x10, 0x42, 0x08, 0x21, 0x84, 0x10, 0x42, 0x08, 0x21, 0x84, 0x00] 0 5).1 =
        .ok 0 ∧
      (readVbrClaimSpec [0x10, 0x42, 0x08, 0x21, 0x84, 0x10, 0x42, 0x08, 0x21, 0x84, 0x00] 0 5).1 =
        .error .vbrOverflow ∧
      (Cursor.readVbr [0xAA, 0xAA, 0xAA, 0xAA, 0xAA, 0xAA, 0xAA, 0xAA, 0xAA, 0xAA, 0xAA,
          0xAA, 0xAA, 0xAA, 0xAA, 0xAA, 0x01] 0 2).1 = .ok 1 := by
  refine ⟨by decide, by decide, by decide⟩

/-- An operand satisfying `is_blob` is not an array. -/
theorem Operand.isArray_of_isBlob (op : Operand) (h : op.isBlob = true) : op.isArray = false := by
  cases op <;> simp_all [Operand.isBlob, Operand.isArray]

/-- Claim C4 (amended): while reading an abbreviation definition, an Array
operand that is not the penultimate operand fails with `InvalidAbbrev`, a
Blob operand that is not the last operand fails with `InvalidAbbrev`, and
`num_ops = 0` fails with `InvalidAbbrev`; an Array operand in penultimate
position is accepted together with whatever element operand follows it —
the element is not checked to be a scalar at definition time, and a payload
element only fails (with `InvalidAbbrev`) when a record is later read with
that abbreviation. -/
theorem c4_read_abbrev_structure :
    (∀ (buf : List Nat) (numOps r i : Nat) (acc : List Operand) (off : Nat) (op : Operand) (off2 : Nat),
        readAbbrevOpTop buf off = .ok (op, off2) → op.isArray = true → i + 2 ≠ numOps →
        readAbbrevGo buf numOps (r + 1) i acc off = .error .invalidAbbrev) ∧
    (∀ (buf : List Nat) (numOps r i : Nat) (acc : List Operand) (off : Nat) (op : Operand) (off2 : Nat),
        readAbbrevOpTop buf off = .ok (op, off2) → op.isBlob = true → i + 1 ≠ numOps →
        readAbbrevGo buf numOps (r + 1) i acc off = .error .invalidAbbrev) ∧
    (∀ (buf : List Nat) (off : Nat), readAbbrev buf 0 off = .error .invalidAbbrev) ∧
    (∀ (buf : List Nat) (numOps r i : Nat) (acc : List Operand) (off : Nat) (el : Operand) (off2 : Nat),
        readAbbrevOpTop buf off = .ok (.array el, off2) → i + 2 = numOps →
        readAbbrevGo buf numOps (r + 1) i acc off = .ok (acc ++ [.array el], off2)) ∧
    readAbbreviatedRecord [0x01] ⟨[.literal 5, .array .blob]⟩ 0 = .error .invalidAbbrev := by
  refine ⟨?_, ?_, ?_, ?_, by decide⟩
  · intro buf numOps r i acc off op off2 h harr hne
    rw [readAbbrevGo, h]
    simp [harr, hne]
  · intro buf numOps r i acc off op off2 h hblob hne
    rw [readAbbrevGo, h]
    simp [Operand.isArray_of_isBlob op hblob, hblob, hne]
  · intro buf off
    rfl
  · intro buf numOps r i acc off el off2 h heq
    rw [readAbbrevGo, h]
    simp [Operand.isArray, heq]

/-- Counterexample for C4 as stated: the 1-byte wire `0xA6` encodes
`num_ops = 2` with a single Array operand whose element is Blob — not a
scalar — yet `read_abbrev` accepts it instead of failing `InvalidAbbrev`. -/
theorem c4_counterexample :
    readAbbrev [0xA6] 2 0 = .ok (⟨[.array .blob]⟩, 8) := by
  decide

/-- Witness for C4 at concrete inputs: with `num_ops = 5` the same Array
operand at position 0 is not penultimate and definition fails
`InvalidAbbrev`; a Blob at position 0 of 2 operands is not last and fails
`InvalidAbbrev`. -/
theorem c4_witness :
    readAbbrevGo [0xA6] 5 5 0 [] 0 = .error .invalidAbbrev ∧
      readAbbrevGo [0x0A] 2 2 0 [] 0 = .error .invalidAbbrev := by
  constructor
  · exact c4_read_abbrev_structure.1 [0xA6] 5 4 0 [] 0 (.array .blob) 8 (by decide)
      (by decide) (by decide)
  · exact c4_read_abbrev_structure.2.1 [0x0A] 2 1 0 [] 0 .blob 4 (by decide)
      (by decide) (by decide)

/-- Claim C7: inside BLOCKINFO, an UNABBREVIATED_RECORD with code 1
(`SetBid`) whose single field is `v` continues parsing with
current-block-id `v`; codes 2 (`BlockName`) and 3 (`SetRecordName`) before
any SetBid fail `MissingSetBid`, as does a DEFINE_ABBREVIATION before any
SetBid; a SetBid whose field count is not 1 fails
`InvalidBlockInfoRecord`. -/
theorem c7_blockinfo_setbid :
    (∀ (buf : List Nat) (s : RState) (w off fuel o1 code o2 n o3 : Nat) (ops : List Nat) (o4 : Nat),
        rRead buf off w = .ok (3, o1) →
        rReadVbr buf o1 6 = .ok (code, o2) →
        rReadVbr buf o2 6 = .ok (n, o3) →
        readVbrList buf n o3 = .ok (ops, o4) →
        ((code = 2 ∨ code = 3) →
          readBlockInfoBlock buf (fuel + 1) s none w off = .error .missingSetBid) ∧
        (code = 1 → ∀ cur : Option Nat,
          (ops.length ≠ 1 →
            readBlockInfoBlock buf (fuel + 1) s cur w off = .error (.invalidBlockInfoRecord 1)) ∧
          (∀ v, ops = [v] →
            readBlockInfoBlock buf (fuel + 1) s cur w off =
              readBlockInfoBlock buf fuel s (some v) w o4))) ∧
    (∀ (buf : List Nat) (s : RState) (w off fuel o1 : Nat),
        rRead buf off w = .ok (2, o1) →
        readBlockInfoBlock buf (fuel + 1) s none w off = .error .missingSetBid) := by
  constructor
  · intro buf s w off fuel o1 code o2 n o3 ops o4 h1 h2 h3 h4
    constructor
    · intro hcode
      rcases hcode with hc | hc <;> subst hc <;>
        simp [readBlockInfoBlock, h1, h2, h3, h4]
    · intro hcode cur
      subst hcode
      constructor
      · intro hlen
        simp [readBlockInfoBlock, h1, h2, h3, h4, hlen]
      · intro v hops
        subst hops
        simp [readBlockInfoBlock, h1, h2, h3, h4]
  · intro buf s w off fuel o1 h1
    simp [readBlockInfoBlock, h1]

/-- Witness for C7 at concrete inputs (abbrev width 2): a SetBid record
with field 8 continues with current-block-id 8; a SetBid with no fields
fails `InvalidBlockInfoRecord(1)`; a BlockName record first fails
`MissingSetBid`; a DEFINE_ABBREVIATION first fails `MissingSetBid`. -/
theorem c7_witness :
    readBlockInfoBlock [0x07, 0x01, 0x02] 1 ⟨[], []⟩ none 2 0 =
        readBlockInfoBlock [0x07, 0x01, 0x02] 0 ⟨[], []⟩ (some 8) 2 20 ∧
      readBlockInfoBlock [0x07, 0x00] 5 ⟨[], []⟩ none 2 0 =
        .error (.invalidBlockInfoRecord 1) ∧
      readBlockInfoBlock [0x0B, 0x00] 5 ⟨[], []⟩ none 2 0 = .error .missingSetBid ∧
      readBlockInfoBlock [0x02] 5 ⟨[], []⟩ none 2 0 = .error .missingSetBid := by
  refine ⟨?_, ?_, ?_, ?_⟩
  · exact (((c7_blockinfo_setbid.1 [0x07, 0x01, 0x02] ⟨[], []⟩ 2 0 0 2 1 8 1 14 [8] 20
      (by decide) (by decide) (by decide) (by decide)).2 rfl none).2 8 rfl)
  · exact ((c7_blockinfo_setbid.1 [0x07, 0x00] ⟨[], []⟩ 2 0 4 2 1 8 0 14 [] 14
      (by decide) (by decide) (by decide) (by decide)).2 rfl none).1 (by decide)
  · exact (c7_blockinfo_setbid.1 [0x0B, 0x00] ⟨[], []⟩ 2 0 4 2 2 8 0 14 [] 14
      (by decide) (by decide) (by decide) (by decide)).1 (Or.inl rfl)
  · exact c7_blockinfo_setbid.2 [0x02] ⟨[], []⟩ 2 0 4 2 (by decide)

/-- Claim C3 evaluated at its failing input: a stream with two instances of
block 8 where the first instance defines a local abbreviation
(`DEFINE_ABBREVIATION`, one `Literal 7` operand) and the second instance
references wire abbreviation ID 4.  The reader resolves ID 4 to the
abbreviation defined in the *earlier* instance — the local definition was
appended to `global_abbrevs[8]` and survived the block exit — and emits
record 7, instead of failing `NoSuchAbbrev{8, 4}` as block-local scoping
requires. -/
theorem c3_local_abbrev_persists :
    readBlock [0x21, 0x08, 0, 0, 0x01, 0, 0, 0, 0x86, 0x07, 0, 0, 0x21, 0x0C, 0, 0,
        0x01, 0, 0, 0, 0x04, 0, 0, 0] (fun _ => true) 32 ⟨[], []⟩ topLevelBlockId 2 0 =
      .ok (⟨[], [(8, [⟨[.literal 7]⟩])]⟩, 192,
        [.enterBlock 8, .exitBlock, .enterBlock 8, .visit ⟨7, [], none⟩, .exitBlock]) := by
  decide

/-- When the record has no payload (or is unabbreviated), `payload` neither
moves the cursor nor changes the state. -/
theorem RecordIter.payload_stationary (buf : List Nat) (o : Ops) (off : Nat)
    (h : match o with | .abbr _ ab => ab.payload = none | .full _ => True) :
    RecordIter.payload buf o off = (.ok none, o, off) := by
  cases o with
  | full n => rfl
  | abbr st ab =>
    simp only at h
    simp only [RecordIter.payload, h]
    split <;> rfl

/-- A successful field drive and the drop drain follow the same path. -/
theorem RecordIter.drainLoop_of_driveFields (buf : List Nat) :
    ∀ (fuel : Nat) (o : Ops) (off : Nat) (fs : List Nat) (o2 : Ops) (off2 : Nat),
      RecordIter.driveFields buf fuel o off = .ok (fs, o2, off2) →
      RecordIter.drainLoop buf fuel o off = (o2, off2) := by
  intro fuel
  induction fuel with
  | zero => intro o off fs o2 off2 h; exact absurd h (by simp [RecordIter.driveFields])
  | succ n ih =>
    intro o off fs o2 off2 h
    rw [RecordIter.driveFields] at h
    rw [RecordIter.drainLoop]
    cases hn : RecordIter.next buf o off with
    | mk r rest =>
      obtain ⟨o1, off1⟩ := rest
      rw [hn] at h
      cases r with
      | error e => exact absurd h (by simp)
      | ok ov =>
        cases ov with
        | none =>
          simp only at h
          cases h
          rfl
        | some v =>
          simp only at h
          cases hd : RecordIter.driveFields buf n o1 off1 with
          | error e => rw [hd] at h; exact absurd h (by simp)
          | ok t =>
            rw [hd] at h
            obtain ⟨vs, o3, off3⟩ := t
            simp only at h
            cases h
            exact ih _ _ _ _ _ hd

/-- Claim C2: dropping a `RecordIter` (abbreviated or unabbreviated) with
unread fields or an unread payload advances the cursor to exactly the bit
position that driving the iterator to completion (all remaining fields plus
the optional payload) reaches, so the enclosing block parser continues from
the same position in both runs. -/
theorem c2_drop_advances_like_drive (buf : List Nat) (o : Ops) (off : Nat)
    (fs : List Nat) (p : Option Payload) (off3 : Nat)
    (h : RecordIter.driveToCompletion buf o off = .ok (fs, p, off3)) :
    RecordIter.dropRun buf o off = off3 := by
  unfold RecordIter.driveToCompletion at h
  cases hdf : RecordIter.driveFields buf (RecordIter.remOps o + 1) o off with
  | error e => rw [hdf] at h; exact absurd h (by simp)
  | ok t =>
    obtain ⟨fs1, o2, off2⟩ := t
    rw [hdf] at h
    simp only at h
    cases hp : RecordIter.payload buf o2 off2 with
    | mk r rest =>
      obtain ⟨o4, off4⟩ := rest
      rw [hp] at h
      cases r with
      | error e => exact absurd h (by simp)
      | ok p2 =>
        simp only at h
        cases h
        unfold RecordIter.dropRun
        rw [RecordIter.drainLoop_of_driveFields buf _ o off _ _ _ hdf]
        cases o2 with
        | full n =>
          have hst := RecordIter.payload_stationary buf (.full n) off2 trivial
          rw [hst] at hp
          cases hp
          rfl
        | abbr st ab =>
          cases hpay : ab.payload with
          | none =>
            have hst := RecordIter.payload_stationary buf (.abbr st ab) off2 hpay
            rw [hst] at hp
            cases hp
            simp [hpay]
          | some po =>
            simp only [hpay, Option.isSome_some, if_pos]
            rw [hp]

/-- Witness for C2: driving an unabbreviated two-field record over the
bytes `[0x45, 0x02]` to completion reads fields `[5, 9]` and stops at bit
12; dropping the fresh iterator lands on the same bit. -/
theorem c2_witness : RecordIter.dropRun [0x45, 0x02] (.full 2) 0 = 12 :=
  c2_drop_advances_like_drive [0x45, 0x02] (.full 2) 0 [5, 9] none 12 (by decide)

/-- A successful `Cursor::read` advances by exactly `bits` and stays within
the buffer. -/
theorem Cursor.read_ok (buf : List Nat) (off bits v off2 : Nat)
    (h : Cursor.read buf off bits = (.ok v, off2)) :
    off2 = off + bits ∧ 1 ≤ bits ∧ bits ≤ 64 ∧ off + bits ≤ 8 * buf.length := by
  unfold Cursor.read at h
  split at h
  · exact absurd (congrArg Prod.fst h) (by simp)
  · rename_i hguard
    have hb : 1 ≤ bits ∧ bits ≤ 64 := by omega
    cases hp : Cursor.peek buf off bits with
    | error e => rw [hp] at h; exact absurd (congrArg Prod.fst h) (by simp)
    | ok w =>
      rw [hp] at h
      have hoff : off2 = off + bits := (congrArg Prod.snd h).symm
      refine ⟨hoff, hb.1, hb.2, ?_⟩
      unfold Cursor.peek at hp
      cases hrb : Cursor.readBits buf off bits with
      | none => rw [hrb] at hp; exact absurd hp (by simp)
      | some u =>
        -- extract the bound from the byte accesses of read_bits
        clear hp h hoff
        unfold Cursor.readBits at hrb
        simp only at hrb
        by_cases h8 : (off + bits) % 8 = 0
        · rw [if_neg (by omega)] at hrb
          have hlt : off / 8 < (off + bits) / 8 := by omega
          obtain ⟨m, hm⟩ : ∃ m, (off + bits) / 8 - off / 8 = m + 1 :=
            ⟨(off + bits) / 8 - off / 8 - 1, by omega⟩
          rw [hm] at hrb
          dsimp only at hrb
          cases ho : orBytesDown buf (off / 8) (m + 1) 0 with
          | none => rw [ho] at hrb; simp at hrb
          | some r =>
            have hidx : off / 8 + m < buf.length := by
              rw [orBytesDown] at ho
              cases hg : buf[off / 8 + m]? with
              | none => rw [hg] at ho; simp at ho
              | some b => exact (List.getElem?_eq_some.mp hg).1
            omega
        · rw [if_pos (by omega)] at hrb
          cases hg : buf[(off + bits) / 8]? with
          | none => rw [hg] at hrb; simp at hrb
          | some b =>
            have hidx : (off + bits) / 8 < buf.length := (List.getElem?_eq_some.mp hg).1
            omega

/-- A successful `Cursor::align32` lands on a 32-bit boundary inside the
buffer, at or after the old position. -/
theorem Cursor.align32_ok (buf : List Nat) (off off2 : Nat) (u : Unit)
    (h : Cursor.align32 buf off = (.ok u, off2)) :
    off2 % 32 = 0 ∧ off2 ≤ 8 * buf.length ∧ off ≤ off2 := by
  unfold Cursor.align32 at h
  simp only at h
  by_cases h32 : off % 32 = 0
  · rw [if_pos h32] at h
    split at h
    · rename_i hbound
      have : off2 = off := (congrArg Prod.snd h).symm
      omega
    · exact absurd (congrArg Prod.fst h) (by simp)
  · rw [if_neg h32] at h
    split at h
    · rename_i hbound
      have : off2 = (off + 32) / 32 * 32 := (congrArg Prod.snd h).symm
      omega
    · exact absurd (congrArg Prod.fst h) (by simp)

/-- `rRead` success unfolds to `Cursor::read` success. -/
theorem rRead_ok (buf : List Nat) (off n v off2 : Nat)
    (h : rRead buf off n = .ok (v, off2)) : Cursor.read buf off n = (.ok v, off2) := by
  unfold rRead at h
  cases hr : Cursor.read buf off n with
  | mk r o =>
    rw [hr] at h
    cases r with
    | error e => exact absurd h (by simp)
    | ok w => cases h; rfl

/-- `rAlign32` success unfolds to `Cursor::align32` success. -/
theorem rAlign32_ok (buf : List Nat) (off off2 : Nat)
    (h : rAlign32 buf off = .ok off2) : Cursor.align32 buf off = (.ok (), off2) := by
  unfold rAlign32 at h
  cases hr : Cursor.align32 buf off with
  | mk r o =>
    rw [hr] at h
    cases r with
    | error e => exact absurd h (by simp)
    | ok u => cases h; rfl

/-- A successful `read_vbr` loop ends at the offset of its last `read`. -/
theorem Cursor.readVbrLoop_ok_le (buf : List Nat) (w : Nat) :
    ∀ (fuel res acc off v off2 : Nat),
      Cursor.readVbrLoop buf w fuel res acc off = (.ok v, off2) → off2 ≤ 8 * buf.length := by
  intro fuel
  induction fuel with
  | zero =>
    intro res acc off v off2 h
    rw [Cursor.readVbrLoop] at h
    exact absurd (congrArg Prod.fst h) (by simp)
  | succ n ih =>
    intro res acc off v off2 h
    rw [Cursor.readVbrLoop] at h
    cases hr : Cursor.read buf off w with
    | mk r o2 =>
      rw [hr] at h
      cases r with
      | error e => exact absurd (congrArg Prod.fst h) (by simp)
      | ok next =>
        dsimp only at h
        have hread := Cursor.read_ok buf off w next o2 hr
        split at h
        · exact absurd (congrArg Prod.fst h) (by simp)
        · split at h
          · have : off2 = o2 := (congrArg Prod.snd h).symm
            omega
          · exact ih _ _ _ _ _ h

/-- A successful `read_vbr` ends within the buffer. -/
theorem Cursor.readVbr_ok_le (buf : List Nat) (off w v off2 : Nat)
    (h : Cursor.readVbr buf off w = (.ok v, off2)) : off2 ≤ 8 * buf.length := by
  unfold Cursor.readVbr at h
  split at h
  · exact absurd (congrArg Prod.fst h) (by simp)
  · exact Cursor.readVbrLoop_ok_le buf w _ _ _ _ _ _ h

/-- A successful `skip_bytes` requires byte alignment and lands within the
buffer. -/
theorem Cursor.skipBytes_ok (buf : List Nat) (off c : Nat) (u : Unit) (off2 : Nat)
    (h : Cursor.skipBytes buf off c = (.ok u, off2)) :
    off % 8 = 0 ∧ off2 = (off / 8 + c) * 8 ∧ off2 ≤ 8 * buf.length := by
  unfold Cursor.skipBytes at h
  split at h
  · exact absurd (congrArg Prod.fst h) (by simp)
  · dsimp only at h
    split at h
    · exact absurd (congrArg Prod.fst h) (by simp)
    · rename_i h8 hb
      have : off2 = (off / 8 + c) * 8 := (congrArg Prod.snd h).symm
      omega

/-- A successful `read_bytes` requires byte alignment and lands within the
buffer. -/
theorem Cursor.readBytes_ok (buf : List Nat) (off n : Nat) (bs : List Nat) (off2 : Nat)
    (h : Cursor.readBytes buf off n = (.ok bs, off2)) :
    off % 8 = 0 ∧ off2 = (off / 8 + n) * 8 ∧ off2 ≤ 8 * buf.length := by
  unfold Cursor.readBytes at h
  split at h
  · exact absurd (congrArg Prod.fst h) (by simp)
  · dsimp only at h
    split at h
    · rename_i h8 hb
      have : off2 = (off / 8 + n) * 8 := (congrArg Prod.snd h).symm
      omega
    · exact absurd (congrArg Prod.fst h) (by simp)

/-- `rReadVbr` success unfolds to `Cursor::read_vbr` success. -/
theorem rReadVbr_ok (buf : List Nat) (off n v off2 : Nat)
    (h : rReadVbr buf off n = .ok (v, off2)) : Cursor.readVbr buf off n = (.ok v, off2) := by
  unfold rReadVbr at h
  cases hr : Cursor.readVbr buf off n with
  | mk r o =>
    rw [hr] at h
    cases r with
    | error e => exact absurd h (by simp)
    | ok w => cases h; rfl

/-- `rSkipBytes` success unfolds to `Cursor::skip_bytes` success. -/
theorem rSkipBytes_ok (buf : List Nat) (off n off2 : Nat)
    (h : rSkipBytes buf off n = .ok off2) : Cursor.skipBytes buf off n = (.ok (), off2) := by
  unfold rSkipBytes at h
  cases hr : Cursor.skipBytes buf off n with
  | mk r o =>
    rw [hr] at h
    cases r with
    | error e => exact absurd h (by simp)
    | ok u => cases h; rfl

/-- `rReadBytes` success unfolds to `Cursor::read_bytes` success. -/
theorem rReadBytes_ok (buf : List Nat) (off n : Nat) (bs : List Nat) (off2 : Nat)
    (h : rReadBytes buf off n = .ok (bs, off2)) : Cursor.readBytes buf off n = (.ok bs, off2) := by
  unfold rReadBytes at h
  cases hr : Cursor.readBytes buf off n with
  | mk r o =>
    rw [hr] at h
    cases r with
    | error e => exact absurd h (by simp)
    | ok u => cases h; rfl

/-- A successful single abbreviated operand either reads nothing (a
literal) or ends within the buffer. -/
theorem readSingleOp_ple (buf : List Nat) (op : Operand) (off v off2 : Nat)
    (h : readSingleOp buf op off = .ok (v, off2)) :
    off2 = off ∨ off2 ≤ 8 * buf.length := by
  cases op with
  | literal w => unfold readSingleOp at h; cases h; left; rfl
  | fixed w =>
    right
    have := Cursor.read_ok buf off w v off2 (rRead_ok buf off w v off2 h)
    omega
  | vbr w =>
    right
    exact Cursor.readVbr_ok_le buf off w v off2 (rReadVbr_ok buf off w v off2 h)
  | char6 =>
    right
    unfold readSingleOp at h
    cases hr : rRead buf off 6 with
    | error e => rw [hr] at h; simp at h
    | ok t =>
      obtain ⟨u, o2⟩ := t
      rw [hr] at h
      dsimp only at h
      cases hc : char6Decode u with
      | error e => rw [hc] at h; simp at h
      | ok c =>
        rw [hc] at h
        cases h
        have := Cursor.read_ok buf off 6 u _ (rRead_ok buf off 6 u _ hr)
        omega
  | array el => unfold readSingleOp at h; simp at h
  | blob => unfold readSingleOp at h; simp at h

/-- A successful field loop either reads nothing or ends within the
buffer. -/
theorem readFields_ple (buf : List Nat) :
    ∀ (ops : List Operand) (off : Nat) (fs : List Nat) (off2 : Nat),
      readFields buf ops off = .ok (fs, off2) → off2 = off ∨ off2 ≤ 8 * buf.length := by
  intro ops
  induction ops with
  | nil => intro off fs off2 h; unfold readFields at h; cases h; left; rfl
  | cons op rest ih =>
    intro off fs off2 h
    unfold readFields at h
    cases h1 : readSingleOp buf op off with
    | error e => rw [h1] at h; simp at h
    | ok t =>
      obtain ⟨v, o1⟩ := t
      rw [h1] at h
      dsimp only at h
      cases h2 : readFields buf rest o1 with
      | error e => rw [h2] at h; simp at h
      | ok t2 =>
        obtain ⟨vs, o2⟩ := t2
        rw [h2] at h
        dsimp only at h
        cases h
        rcases readSingleOp_ple buf op off v o1 h1 with p1 | p1 <;>
          rcases ih o1 _ _ h2 with p2 | p2 <;> omega

/-- A successful element loop either reads nothing or ends within the
buffer. -/
theorem readElems_ple (buf : List Nat) (el : Operand) :
    ∀ (n off : Nat) (vs : List Nat) (off2 : Nat),
      readElems buf el n off = .ok (vs, off2) → off2 = off ∨ off2 ≤ 8 * buf.length := by
  intro n
  induction n with
  | zero => intro off vs off2 h; unfold readElems at h; cases h; left; rfl
  | succ m ih =>
    intro off vs off2 h
    unfold readElems at h
    cases h1 : readSingleOp buf el off with
    | error e => rw [h1] at h; simp at h
    | ok t =>
      obtain ⟨v, o1⟩ := t
      rw [h1] at h
      dsimp only at h
      cases h2 : readElems buf el m o1 with
      | error e => rw [h2] at h; simp at h
      | ok t2 =>
        obtain ⟨ws, o2⟩ := t2
        rw [h2] at h
        dsimp only at h
        cases h
        rcases readSingleOp_ple buf el off v o1 h1 with p1 | p1 <;>
          rcases ih o1 _ _ h2 with p2 | p2 <;> omega

/-- A successful vbr6 list loop either reads nothing or ends within the
buffer. -/
theorem readVbrList_ple (buf : List Nat) :
    ∀ (n off : Nat) (vs : List Nat) (off2 : Nat),
      readVbrList buf n off = .ok (vs, off2) → off2 = off ∨ off2 ≤ 8 * buf.length := by
  intro n
  induction n with
  | zero => intro off vs off2 h; unfold readVbrList at h; cases h; left; rfl
  | succ m ih =>
    intro off vs off2 h
    unfold readVbrList at h
    cases h1 : rReadVbr buf off 6 with
    | error e => rw [h1] at h; simp at h
    | ok t =>
      obtain ⟨v, o1⟩ := t
      rw [h1] at h
      dsimp only at h
      cases h2 : readVbrList buf m o1 with
      | error e => rw [h2] at h; simp at h
      | ok t2 =>
        obtain ⟨ws, o2⟩ := t2
        rw [h2] at h
        dsimp only at h
        cases h
        have p1 := Cursor.readVbr_ok_le buf off 6 v o1 (rReadVbr_ok buf off 6 v o1 h1)
        rcases ih o1 _ _ h2 with p2 | p2 <;> omega

/-- A successful `read_abbrev_op` ends within the buffer. -/
theorem readAbbrevOp_ple (buf : List Nat) :
    ∀ (fuel off : Nat) (op : Operand) (off2 : Nat),
      readAbbrevOp buf fuel off = .ok (op, off2) → off2 ≤ 8 * buf.length := by
  intro fuel
  induction fuel with
  | zero => intro off op off2 h; rw [readAbbrevOp] at h; simp at h
  | succ n ih =>
    intro off op off2 h
    rw [readAbbrevOp] at h
    cases h1 : rRead buf off 1 with
    | error e => rw [h1] at h; simp at h
    | ok t =>
      obtain ⟨isLit, o1⟩ := t
      rw [h1] at h
      dsimp only at h
      split at h
      · cases h2 : rReadVbr buf o1 8 with
        | error e => rw [h2] at h; simp at h
        | ok t2 =>
          obtain ⟨v, o2⟩ := t2
          rw [h2] at h
          dsimp only at h
          cases h
          exact Cursor.readVbr_ok_le buf o1 8 v _ (rReadVbr_ok buf o1 8 v _ h2)
      · cases h2 : rRead buf o1 3 with
        | error e => rw [h2] at h; simp at h
        | ok t2 =>
          obtain ⟨ty, o2⟩ := t2
          rw [h2] at h
          dsimp only at h
          have hro2 : o2 ≤ 8 * buf.length := by
            have := Cursor.read_ok buf o1 3 ty o2 (rRead_ok buf o1 3 ty o2 h2)
            omega
          split at h
          · cases h3 : rReadVbr buf o2 5 with
            | error e => rw [h3] at h; simp at h
            | ok t3 =>
              obtain ⟨v, o3⟩ := t3
              rw [h3] at h
              dsimp only at h
              cases h
              exact Cursor.readVbr_ok_le buf o2 5 v _ (rReadVbr_ok buf o2 5 v _ h3)
          · split at h
            · cases h3 : rReadVbr buf o2 5 with
              | error e => rw [h3] at h; simp at h
              | ok t3 =>
                obtain ⟨v, o3⟩ := t3
                rw [h3] at h
                dsimp only at h
                cases h
                exact Cursor.readVbr_ok_le buf o2 5 v _ (rReadVbr_ok buf o2 5 v _ h3)
            · split at h
              · cases h3 : readAbbrevOp buf n o2 with
                | error e => rw [h3] at h; simp at h
                | ok t3 =>
                  obtain ⟨el, o3⟩ := t3
                  rw [h3] at h
                  dsimp only at h
                  cases h
                  exact ih o2 el _ h3
              · split at h
                · cases h; exact hro2
                · split at h
                  · cases h; exact hro2
                  · simp at h

/-- A successful `read_abbrev` loop either reads nothing or ends within
the buffer. -/
theorem readAbbrevGo_ple (buf : List Nat) (numOps : Nat) :
    ∀ (r i : Nat) (acc : List Operand) (off : Nat) (ops : List Operand) (off2 : Nat),
      readAbbrevGo buf numOps r i acc off = .ok (ops, off2) →
      off2 = off ∨ off2 ≤ 8 * buf.length := by
  intro r
  induction r with
  | zero =>
    intro i acc off ops off2 h
    rw [readAbbrevGo] at h
    cases h
    left
    rfl
  | succ n ih =>
    intro i acc off ops off2 h
    rw [readAbbrevGo] at h
    cases h1 : readAbbrevOpTop buf off with
    | error e => rw [h1] at h; simp at h
    | ok t =>
      obtain ⟨op, o1⟩ := t
      rw [h1] at h
      dsimp only at h
      have ho1 : o1 ≤ 8 * buf.length := readAbbrevOp_ple buf _ off op o1 h1
      split at h
      · split at h
        · cases h; right; exact ho1
        · simp at h
      · split at h
        · simp at h
        · rcases ih _ _ _ _ _ h with p | p
          · right; omega
          · right; exact p

/-- A successful `read_abbrev` either reads nothing or ends within the
buffer. -/
theorem readAbbrev_ple (buf : List Nat) (numOps off : Nat) (ab : Abbreviation) (off2 : Nat)
    (h : readAbbrev buf numOps off = .ok (ab, off2)) :
    off2 = off ∨ off2 ≤ 8 * buf.length := by
  unfold readAbbrev at h
  split at h
  · simp at h
  · cases h1 : readAbbrevGo buf numOps numOps 0 [] off with
    | error e => rw [h1] at h; simp at h
    | ok t =>
      obtain ⟨ops, o1⟩ := t
      rw [h1] at h
      dsimp only at h
      cases h
      exact readAbbrevGo_ple buf numOps numOps 0 [] off ops _ h1

/-- A successful `read_abbreviated_record` either reads nothing (an
all-literal abbreviation) or ends within the buffer. -/
theorem readAbbreviatedRecord_ple (buf : List Nat) (ab : Abbreviation) (off : Nat)
    (rec : Record) (off2 : Nat)
    (h : readAbbreviatedRecord buf ab off = .ok (rec, off2)) :
    off2 = off ∨ off2 ≤ 8 * buf.length := by
  unfold readAbbreviatedRecord at h
  cases hops : ab.operands with
  | nil => rw [hops] at h; simp at h
  | cons op0 rest =>
    rw [hops] at h
    dsimp only at h
    cases h1 : readSingleOp buf op0 off with
    | error e => rw [h1] at h; simp at h
    | ok t =>
      obtain ⟨code, o1⟩ := t
      rw [h1] at h
      dsimp only at h
      have p1 := readSingleOp_ple buf op0 off code o1 h1
      cases h2 : readFields buf
          (if ((op0 :: rest).getLast (List.cons_ne_nil op0 rest)).isPayload then rest.dropLast
            else rest) o1 with
      | error e => rw [h2] at h; simp at h
      | ok t2 =>
        obtain ⟨fields, o2⟩ := t2
        rw [h2] at h
        dsimp only at h
        have p2 := readFields_ple buf _ o1 fields o2 h2
        split at h
        · -- payload present
          split at h
          · -- array payload
            rename_i el heq
            cases h3 : rReadVbr buf o2 6 with
            | error e => rw [h3] at h; simp at h
            | ok t3 =>
              obtain ⟨len, o3⟩ := t3
              rw [h3] at h
              dsimp only at h
              have p3 := Cursor.readVbr_ok_le buf o2 6 len o3 (rReadVbr_ok buf o2 6 len o3 h3)
              cases h4 : readElems buf el len o3 with
              | error e => rw [h4] at h; simp at h
              | ok t4 =>
                obtain ⟨elems, o4⟩ := t4
                rw [h4] at h
                dsimp only at h
                have p4 := readElems_ple buf el len o3 elems o4 h4
                split at h
                · cases h; right; omega
                · cases h; right; omega
          · -- blob payload
            cases h3 : rReadVbr buf o2 6 with
            | error e => rw [h3] at h; simp at h
            | ok t3 =>
              obtain ⟨len, o3⟩ := t3
              rw [h3] at h
              dsimp only at h
              cases h4 : rAlign32 buf o3 with
              | error e => rw [h4] at h; simp at h
              | ok o4 =>
                rw [h4] at h
                dsimp only at h
                cases h5 : rReadBytes buf o4 len with
                | error e => rw [h5] at h; simp at h
                | ok t5 =>
                  obtain ⟨data, o5⟩ := t5
                  rw [h5] at h
                  dsimp only at h
                  cases h6 : rAlign32 buf o5 with
                  | error e => rw [h6] at h; simp at h
                  | ok o6 =>
                    rw [h6] at h
                    dsimp only at h
                    cases h
                    have p6 := Cursor.align32_ok buf o5 _ () (rAlign32_ok buf o5 _ h6)
                    right
                    omega
          · simp at h
        · cases h
          rcases p1 with q1 | q1 <;> rcases p2 with q2 | q2 <;> omega

/-- A successful `read_block_info_block` ends within the buffer (it always
returns through the END_BLOCK alignment). -/
theorem readBlockInfoBlock_ple (buf : List Nat) :
    ∀ (fuel : Nat) (s : RState) (cur : Option Nat) (w off : Nat) (s2 : RState) (off2 : Nat),
      readBlockInfoBlock buf fuel s cur w off = .ok (s2, off2) → off2 ≤ 8 * buf.length := by
  intro fuel
  induction fuel with
  | zero => intro s cur w off s2 off2 h; rw [readBlockInfoBlock] at h; simp at h
  | succ n ih =>
    intro s cur w off s2 off2 h
    rw [readBlockInfoBlock] at h
    cases h1 : rRead buf off w with
    | error e => rw [h1] at h; simp at h
    | ok t =>
      obtain ⟨aid, o1⟩ := t
      rw [h1] at h
      dsimp only at h
      split at h
      · -- END_BLOCK
        cases h2 : rAlign32 buf o1 with
        | error e => rw [h2] at h; simp at h
        | ok o2 =>
          rw [h2] at h
          dsimp only at h
          cases h
          have := Cursor.align32_ok buf o1 _ () (rAlign32_ok buf o1 _ h2)
          omega
      · split at h
        · simp at h
        · split at h
          · -- DEFINE_ABBREVIATION
            cases cur with
            | none => simp at h
            | some bid =>
              dsimp only at h
              cases h2 : rReadVbr buf o1 5 with
              | error e => rw [h2] at h; simp at h
              | ok t2 =>
                obtain ⟨numOps, o2⟩ := t2
                rw [h2] at h
                dsimp only at h
                cases h3 : readAbbrev buf numOps o2 with
                | error e => rw [h3] at h; simp at h
                | ok t3 =>
                  obtain ⟨ab, o3⟩ := t3
                  rw [h3] at h
                  dsimp only at h
                  exact ih _ _ _ _ _ _ h
          · split at h
            · -- UNABBREVIATED_RECORD
              cases h2 : rReadVbr buf o1 6 with
              | error e => rw [h2] at h; simp at h
              | ok t2 =>
                obtain ⟨code, o2⟩ := t2
                rw [h2] at h
                dsimp only at h
                cases h3 : rReadVbr buf o2 6 with
                | error e => rw [h3] at h; simp at h
                | ok t3 =>
                  obtain ⟨numOps, o3⟩ := t3
                  rw [h3] at h
                  dsimp only at h
                  cases h4 : readVbrList buf numOps o3 with
                  | error e => rw [h4] at h; simp at h
                  | ok t4 =>
                    obtain ⟨ops, o4⟩ := t4
                    rw [h4] at h
                    dsimp only at h
                    split at h
                    · simp at h
                    · split at h
                      · split at h
                        · simp at h
                        · exact ih _ _ _ _ _ _ h
                      · split at h
                        · cases cur with
                          | none => simp at h
                          | some bid => exact ih _ _ _ _ _ _ h
                        · split at h
                          · cases cur with
                            | none => simp at h
                            | some bid =>
                              dsimp only at h
                              cases hh : ops.head? with
                              | none => rw [hh] at h; simp at h
                              | some rid => rw [hh] at h; exact ih _ _ _ _ _ _ h
                          · simp at h
            · simp at h

/-- A successful `read_block` either reads nothing (immediate end of
stream at top level) or ends within the buffer. -/
theorem readBlock_ple (buf : List Nat) (policy : Nat → Bool) :
    ∀ (fuel : Nat) (s : RState) (id w off : Nat) (s2 : RState) (off2 : Nat) (ev : List Event),
      readBlock buf policy fuel s id w off = .ok (s2, off2, ev) →
      off2 = off ∨ off2 ≤ 8 * buf.length := by
  intro fuel
  induction fuel with
  | zero => intro s id w off s2 off2 ev h; rw [readBlock] at h; simp at h
  | succ n ih =>
    intro s id w off s2 off2 ev h
    rw [readBlock] at h
    split at h
    · split at h
      · cases h; left; rfl
      · simp at h
    · cases h1 : rRead buf off w with
      | error e => rw [h1] at h; simp at h
      | ok t =>
        obtain ⟨aid, o1⟩ := t
        rw [h1] at h
        dsimp only at h
        have ho1 : o1 ≤ 8 * buf.length := by
          have := Cursor.read_ok buf off w aid o1 (rRead_ok buf off w aid o1 h1)
          omega
        split at h
        · -- END_BLOCK
          cases h2 : rAlign32 buf o1 with
          | error e => rw [h2] at h; simp at h
          | ok o2 =>
            rw [h2] at h
            dsimp only at h
            cases h
            have := Cursor.align32_ok buf o1 _ () (rAlign32_ok buf o1 _ h2)
            right
            omega
        · split at h
          · -- ENTER_SUB_BLOCK
            cases h2 : rReadVbr buf o1 8 with
            | error e => rw [h2] at h; simp at h
            | ok t2 =>
              obtain ⟨bid, o2⟩ := t2
              rw [h2] at h
              dsimp only at h
              cases h3 : rReadVbr buf o2 4 with
              | error e => rw [h3] at h; simp at h
              | ok t3 =>
                obtain ⟨nw, o3⟩ := t3
                rw [h3] at h
                dsimp only at h
                cases h4 : rAlign32 buf o3 with
                | error e => rw [h4] at h; simp at h
                | ok o4 =>
                  rw [h4] at h
                  dsimp only at h
                  cases h5 : rRead buf o4 32 with
                  | error e => rw [h5] at h; simp at h
                  | ok t5 =>
                    obtain ⟨lenW, o5⟩ := t5
                    rw [h5] at h
                    dsimp only at h
                    have ho5 : o5 ≤ 8 * buf.length := by
                      have := Cursor.read_ok buf o4 32 lenW o5 (rRead_ok buf o4 32 lenW o5 h5)
                      omega
                    split at h
                    · -- BLOCKINFO
                      cases h6 : readBlockInfoBlock buf n s none nw o5 with
                      | error e => rw [h6] at h; simp at h
                      | ok t6 =>
                        obtain ⟨s1, o6⟩ := t6
                        rw [h6] at h
                        dsimp only at h
                        have p6 : o6 ≤ 8 * buf.length :=
                          readBlockInfoBlock_ple buf n s none nw o5 s1 o6 h6
                        cases h7 : readBlock buf policy n s1 id w o6 with
                        | error e => rw [h7] at h; simp at h
                        | ok t7 =>
                          obtain ⟨s3, o7, ev3⟩ := t7
                          rw [h7] at h
                          dsimp only at h
                          cases h
                          rcases ih _ _ _ _ _ _ _ h7 with p | p
                          · right; omega
                          · right; exact p
                    · split at h
                      · -- enter and recurse
                        cases h6 : readBlock buf policy n s bid nw o5 with
                        | error e => rw [h6] at h; simp at h
                        | ok t6 =>
                          obtain ⟨s1, o6, ev1⟩ := t6
                          rw [h6] at h
                          dsimp only at h
                          cases h7 : readBlock buf policy n s1 id w o6 with
                          | error e => rw [h7] at h; simp at h
                          | ok t7 =>
                            obtain ⟨s3, o7, ev2⟩ := t7
                            rw [h7] at h
                            dsimp only at h
                            cases h
                            rcases ih _ _ _ _ _ _ _ h6 with p | p <;>
                              rcases ih _ _ _ _ _ _ _ h7 with q | q <;> right <;> omega
                      · -- refuse and skip
                        cases h6 : rSkipBytes buf o5 (lenW * 4) with
                        | error e => rw [h6] at h; simp at h
                        | ok o6 =>
                          rw [h6] at h
                          dsimp only at h
                          have p6 := Cursor.skipBytes_ok buf o5 (lenW * 4) () o6
                            (rSkipBytes_ok buf o5 (lenW * 4) o6 h6)
                          rcases ih _ _ _ _ _ _ _ h with p | p
                          · right; omega
                          · right; exact p
          · split at h
            · -- DEFINE_ABBREVIATION
              cases h2 : rReadVbr buf o1 5 with
              | error e => rw [h2] at h; simp at h
              | ok t2 =>
                obtain ⟨numOps, o2⟩ := t2
                rw [h2] at h
                dsimp only at h
                cases h3 : readAbbrev buf numOps o2 with
                | error e => rw [h3] at h; simp at h
                | ok t3 =>
                  obtain ⟨ab, o3⟩ := t3
                  rw [h3] at h
                  dsimp only at h
                  have p2 : o2 ≤ 8 * buf.length :=
                    Cursor.readVbr_ok_le buf o1 5 numOps o2 (rReadVbr_ok buf o1 5 numOps o2 h2)
                  have p3 := readAbbrev_ple buf numOps o2 ab o3 h3
                  rcases ih _ _ _ _ _ _ _ h with p | p
                  · right; rcases p3 with q | q <;> omega
                  · right; exact p
            · split at h
              · -- UNABBREVIATED_RECORD
                cases h2 : rReadVbr buf o1 6 with
                | error e => rw [h2] at h; simp at h
                | ok t2 =>
                  obtain ⟨code, o2⟩ := t2
                  rw [h2] at h
                  dsimp only at h
                  cases h3 : rReadVbr buf o2 6 with
                  | error e => rw [h3] at h; simp at h
                  | ok t3 =>
                    obtain ⟨numOps, o3⟩ := t3
                    rw [h3] at h
                    dsimp only at h
                    cases h4 : readVbrList buf numOps o3 with
                    | error e => rw [h4] at h; simp at h
                    | ok t4 =>
                      obtain ⟨ops, o4⟩ := t4
                      rw [h4] at h
                      dsimp only at h
                      cases h5 : readBlock buf policy n s id w o4 with
                      | error e => rw [h5] at h; simp at h
                      | ok t5 =>
                        obtain ⟨s1, o5, evs⟩ := t5
                        rw [h5] at h
                        dsimp only at h
                        cases h
                        have p3 : o3 ≤ 8 * buf.length :=
                          Cursor.readVbr_ok_le buf o2 6 numOps o3 (rReadVbr_ok buf o2 6 numOps o3 h3)
                        have p4 := readVbrList_ple buf numOps o3 ops o4 h4
                        rcases ih _ _ _ _ _ _ _ h5 with p | p
                        · right; rcases p4 with q | q <;> omega
                        · right; exact p
              · -- abbreviation reference
                cases hg : lookupGlobal s id with
                | none => rw [hg] at h; simp at h
                | some l =>
                  rw [hg] at h
                  dsimp only at h
                  split at h
                  · cases h2 : readAbbreviatedRecord buf l[aid - 4] o1 with
                    | error e => rw [h2] at h; simp at h
                    | ok t2 =>
                      obtain ⟨recd, o2⟩ := t2
                      rw [h2] at h
                      dsimp only at h
                      cases h3 : readBlock buf policy n s id w o2 with
                      | error e => rw [h3] at h; simp at h
                      | ok t3 =>
                        obtain ⟨s1, o3, evs⟩ := t3
                        rw [h3] at h
                        dsimp only at h
                        cases h
                        have p2 := readAbbreviatedRecord_ple buf l[aid - 4] o1 recd o2 h2
                        rcases ih _ _ _ _ _ _ _ h3 with p | p
                        · right; rcases p2 with q | q <;> omega
                        · right; exact p
                  · simp at h

/-- Claim C6: for a well-formed sub-block — one whose ENTER_SUB_BLOCK
header declares word count `W` and which, when entered, drains to its
END_BLOCK exactly at `oH + 32·W` — refusing to enter it
(`should_enter_block` returning false) and skipping `4·W` bytes reaches
the same bit position, so both runs leave the cursor at the same place.
The hypotheses mirror the EnterSubBlock branch of `read_block`: an 8-bit
VBR block id, a 4-bit VBR abbreviation width, a 32-bit alignment, the
32-bit word count `W`, and then either `read_block` (the entering run,
with any policy for nested blocks) or `skip_bytes(4·W)` (the refusing
run). -/
theorem c6_skip_consistency (buf : List Nat) (policy : Nat → Bool) (s : RState)
    (fuel off bid o1 wNew o2 o3 W oH : Nat) (s2 : RState) (oD : Nat) (ev : List Event)
    (h1 : rReadVbr buf off 8 = .ok (bid, o1))
    (h2 : rReadVbr buf o1 4 = .ok (wNew, o2))
    (h3 : rAlign32 buf o2 = .ok o3)
    (h4 : rRead buf o3 32 = .ok (W, oH))
    (h5 : readBlock buf policy fuel s bid wNew oH = .ok (s2, oD, ev))
    (h6 : oD = oH + 32 * W) :
    rSkipBytes buf oH (W * 4) = .ok oD := by
  have ha := Cursor.align32_ok buf o2 o3 () (rAlign32_ok buf o2 o3 h3)
  have hr := Cursor.read_ok buf o3 32 W oH (rRead_ok buf o3 32 W oH h4)
  have hple := readBlock_ple buf policy fuel s bid wNew oH s2 oD ev h5
  have hbound : oH + 32 * W ≤ 8 * buf.length := by rcases hple with p | p <;> omega
  have hoH8 : oH % 8 = 0 := by omega
  unfold rSkipBytes Cursor.skipBytes
  rw [if_neg (by omega)]
  simp only
  rw [if_neg (by omega)]
  have hend : (oH / 8 + W * 4) * 8 = oD := by omega
  rw [hend]

/-- Witness for C6: a 12-byte stream whose header (from bit 0) is block id
8, new width 2, alignment to bit 32, word count `W = 1`, and whose one-word
body is END_BLOCK plus padding.  Entering drains to bit 96 = 64 + 32·1, and
skipping 4·1 bytes from bit 64 lands on the same bit 96. -/
theorem c6_witness :
    rSkipBytes [0x08, 0x02, 0, 0, 0x01, 0, 0, 0, 0, 0, 0, 0] 64 4 = .ok 96 :=
  c6_skip_consistency [0x08, 0x02, 0, 0, 0x01, 0, 0, 0, 0, 0, 0, 0] (fun _ => true)
    ⟨[], []⟩ 2 0 8 8 2 12 32 1 64 ⟨[], []⟩ 96 [.exitBlock]
    (by decide) (by decide) (by decide) (by decide) (by decide) (by decide)
